/-
Verification of the Tracekit scheduling and tracing harness.

Shallow embedding of:
  * tools/scheduler/worker.py            (fair-share water-filling, capacity return)
  * Tracekit/tools/scheduler/scheduler_central.py   (central scheduler dispatch loop)
  * tools/adapters/ffmpeg_wrapper.py     (span record emission)
  * tools/parse_sys.py                   (per-pid CPU diff normalization)
  * tools/export_opendc.py               (tasks/fragments export)

Python floats are modelled as exact rationals (ℚ), Python ints as ℤ/ℕ.
-/
import Mathlib

/-! ## Fair-share controller (tools/scheduler/worker.py, waterfill_lambda / compute_shares_map) -/

namespace Worker

/-- Inner loop of `waterfill_lambda`: at each step `lam = (C - prefix) / remaining`;
if `lam <= a[k]` return `max(0, lam)`, else advance consuming `a[k]`.
`D` is `C - prefix`; `last` is `a[-1]`, returned when the loop exhausts. -/
def wfLoop (last : ℚ) : ℚ → List ℚ → ℚ
  | _, [] => last
  | D, x :: xs =>
    let lam := D / ((x :: xs).length : ℚ)
    if lam ≤ x then max 0 lam else wfLoop last (D - x) xs

/-- `waterfill_lambda(reqs, C)` from worker.py: sanitize `C` and the requests to be
nonnegative, sort ascending, then run the prefix walk. -/
def waterfill_lambda (reqs : List ℚ) (C : ℚ) : ℚ :=
  let a := (reqs.map (fun x => max 0 x)).insertionSort (· ≤ ·)
  if a.isEmpty then 0 else wfLoop (a.getLast?.getD 0) (max 0 C) a

/-- `compute_shares_map(units_map, C)`: share of each unit is `min(max(0, r), lam)`. -/
def compute_shares_map (units : List (String × ℚ)) (C : ℚ) : List (String × ℚ) :=
  match units with
  | [] => []
  | _ =>
    let lam := waterfill_lambda (units.map (·.2)) C
    units.map (fun p => (p.1, min (max 0 p.2) lam))

/-- Python-style `round` (round half to even), used by `int(round(x))` for quotas. -/
def pyRound (q : ℚ) : ℤ :=
  let f := ⌊q⌋
  let frac := q - (f : ℚ)
  if frac < 1/2 then f
  else if (1:ℚ)/2 < frac then f + 1
  else if Even f then f else f + 1

/-- `quota_pct = max(1, int(round(share * 100.0)))` from worker.py. -/
def quotaPct (share : ℚ) : ℤ := max 1 (pyRound (100 * share))

theorem wfLoop_sum (last : ℚ) :
    ∀ (l : List ℚ) (D : ℚ), 0 ≤ D → (∀ x ∈ l, 0 ≤ x) →
      (l.map (fun x => min x (wfLoop last D l))).sum ≤ D := by
  intro l
  induction l with
  | nil => intro D hD _; simpa using hD
  | cons x xs ih =>
    intro D hD hnn
    have hxnn : 0 ≤ x := hnn x (List.mem_cons_self x xs)
    have hlen : (0:ℚ) < ((x :: xs).length : ℚ) := by
      exact_mod_cast Nat.cast_pos.mpr (List.length_pos.mpr (List.cons_ne_nil x xs))
    by_cases h : D / ((x :: xs).length : ℚ) ≤ x
    · have hwf : wfLoop last D (x :: xs) = max 0 (D / ((x :: xs).length : ℚ)) := by
        simp only [wfLoop, h, if_pos]
      rw [hwf]
      have hbound : ∀ y ∈ (x :: xs), min y (max 0 (D / ((x :: xs).length : ℚ)))
          ≤ max 0 (D / ((x :: xs).length : ℚ)) := fun y _ => min_le_right _ _
      calc ((x :: xs).map (fun y => min y (max 0 (D / ((x :: xs).length : ℚ))))).sum
          ≤ ((x :: xs).map (fun _ => max 0 (D / ((x :: xs).length : ℚ)))).sum := by
            apply List.sum_le_sum
            intro y hy
            exact hbound y hy
        _ = ((x :: xs).length : ℚ) * max 0 (D / ((x :: xs).length : ℚ)) := by
            rw [List.map_const', List.sum_replicate, nsmul_eq_mul]
        _ = max 0 D := by
            rw [mul_max_of_nonneg _ _ (le_of_lt hlen), mul_zero,
              mul_div_cancel₀ _ (ne_of_gt hlen)]
        _ = D := max_eq_right hD
    · have hwf : wfLoop last D (x :: xs) = wfLoop last (D - x) xs := by
        simp only [wfLoop, h, if_neg, not_false_iff]
      push_neg at h
      have hxD : x < D := by
        have h1 : x * ((x :: xs).length : ℚ) < D := (lt_div_iff₀ hlen).mp h
        have h2 : x * 1 ≤ x * ((x :: xs).length : ℚ) := by
          apply mul_le_mul_of_nonneg_left _ hxnn
          exact_mod_cast Nat.one_le_iff_ne_zero.mpr (by simp)
        linarith
      have hD' : 0 ≤ D - x := by linarith
      have ihx := ih (D - x) hD' (fun y hy => hnn y (List.mem_cons_of_mem x hy))
      rw [hwf]
      simp only [List.map_cons, List.sum_cons]
      have hhead : min x (wfLoop last (D - x) xs) ≤ x := min_le_left _ _
      linarith

theorem shares_sum_le (units : List (String × ℚ)) (C : ℚ) (hC : 0 ≤ C) :
    ((compute_shares_map units C).map (·.2)).sum ≤ C := by
  match units with
  | [] => simpa [compute_shares_map] using hC
  | u :: us =>
    set lam := waterfill_lambda ((u :: us).map (·.2)) C with hlam
    have hmap : ((compute_shares_map (u :: us) C).map (·.2))
        = (((u :: us).map (·.2)).map (fun r => max 0 r)).map (fun y => min y lam) := by
      simp only [compute_shares_map, List.map_map]
      rfl
    rw [hmap]
    set sanitized := ((u :: us).map (·.2)).map (fun r => max 0 r) with hsan
    have hsan_ne : sanitized ≠ [] := by simp [hsan]
    set a := sanitized.insertionSort (· ≤ ·) with ha
    have hperm : List.Perm a sanitized := List.perm_insertionSort _ _
    have ha_ne : a ≠ [] := by
      intro hnil
      exact hsan_ne (List.Perm.eq_nil (hnil ▸ hperm.symm))
    have hlam_eq : lam = wfLoop (a.getLast?.getD 0) (max 0 C) a := by
      rw [hlam]
      simp only [waterfill_lambda]
      rw [← hsan, ← ha, if_neg (by simpa [List.isEmpty_iff] using ha_ne)]
    have hsum_eq : (sanitized.map (fun y => min y lam)).sum
        = (a.map (fun y => min y lam)).sum :=
      (List.Perm.sum_eq (hperm.map _)).symm
    rw [hsum_eq, hlam_eq]
    have hnn : ∀ y ∈ a, 0 ≤ y := by
      intro y hy
      have : y ∈ sanitized := hperm.mem_iff.mp hy
      rw [hsan] at this
      obtain ⟨r, _, hr⟩ := List.mem_map.mp this
      rw [← hr]
      exact le_max_left _ _
    calc (a.map (fun y => min y (wfLoop (a.getLast?.getD 0) (max 0 C) a))).sum
        ≤ max 0 C := wfLoop_sum _ a (max 0 C) (le_max_left _ _) hnn
      _ = C := max_eq_right hC

theorem shares_forall₂ (units : List (String × ℚ)) (C : ℚ) :
    List.Forall₂ (fun (p q : String × ℚ) =>
        q.1 = p.1 ∧ (0 ≤ p.2 →
          q.2 = min p.2 (waterfill_lambda (units.map (·.2)) C) ∧ q.2 ≤ p.2))
      units (compute_shares_map units C) := by
  match units with
  | [] => simp [compute_shares_map]
  | u :: us =>
    simp only [compute_shares_map]
    rw [List.forall₂_map_right_iff]
    apply List.forall₂_same.mpr
    intro p _
    refine ⟨rfl, fun hp => ?_⟩
    constructor
    · simp [max_eq_right hp]
    · simp only [max_eq_right hp]
      exact min_le_left _ _

theorem scenarioE_before : compute_shares_map [("u1", 1), ("u2", 3)] 2 = [("u1", 1), ("u2", 1)] := by
  norm_num [compute_shares_map, waterfill_lambda, wfLoop, List.insertionSort, List.orderedInsert]

theorem scenarioE_after : compute_shares_map [("u1", 1), ("u2", 3), ("u3", 4)] 2
    = [("u1", 2/3), ("u2", 2/3), ("u3", 2/3)] := by
  norm_num [compute_shares_map, waterfill_lambda, wfLoop, List.insertionSort, List.orderedInsert]

theorem pyRound_100 : pyRound 100 = 100 := by
  norm_num [pyRound]

theorem pyRound_200_3 : pyRound (200/3) = 67 := by
  have h : (⌊(200:ℚ)/3⌋ : ℤ) = 66 := by
    rw [Int.floor_eq_iff]
    norm_num
  simp only [pyRound, h]
  norm_num

theorem scenarioE_quotas_before :
    (compute_shares_map [("u1", 1), ("u2", 3)] 2).map (fun p => quotaPct p.2) = [100, 100] := by
  rw [scenarioE_before]
  simp only [List.map_cons, List.map_nil, quotaPct]
  norm_num [pyRound_100]

theorem scenarioE_quotas_after :
    (compute_shares_map [("u1", 1), ("u2", 3), ("u3", 4)] 2).map (fun p => quotaPct p.2)
      = [67, 67, 67] := by
  rw [scenarioE_after]
  simp only [List.map_cons, List.map_nil, quotaPct]
  have h : (100 : ℚ) * (2/3) = 200/3 := by norm_num
  rw [h, pyRound_200_3]
  norm_num

end Worker

/-- C5: fair-share water-filling — every computed share satisfies
`s_i = min(r_i, λ)` (hence `s_i ≤ r_i`) and `Σ s_i ≤ C`; quotas are
`max(1, round(100·s_i))`; on the Scenario E inputs `{u1:1, u2:3}, C=2` the shares
are `{u1:1, u2:1}` (quotas 100%), and after admitting `u3` with `r=4` each share
is `2/3` (quotas 67%). -/
theorem C5_fair_share_waterfilling :
    (∀ (units : List (String × ℚ)) (C : ℚ), 0 ≤ C →
       ((Worker.compute_shares_map units C).map (·.2)).sum ≤ C)
  ∧ (∀ (units : List (String × ℚ)) (C : ℚ),
       List.Forall₂ (fun (p q : String × ℚ) =>
         q.1 = p.1 ∧ (0 ≤ p.2 →
           q.2 = min p.2 (Worker.waterfill_lambda (units.map (·.2)) C) ∧ q.2 ≤ p.2))
         units (Worker.compute_shares_map units C))
  ∧ Worker.compute_shares_map [("u1", 1), ("u2", 3)] 2 = [("u1", 1), ("u2", 1)]
  ∧ Worker.compute_shares_map [("u1", 1), ("u2", 3), ("u3", 4)] 2
      = [("u1", 2/3), ("u2", 2/3), ("u3", 2/3)]
  ∧ (Worker.compute_shares_map [("u1", 1), ("u2", 3)] 2).map
      (fun p => Worker.quotaPct p.2) = [100, 100]
  ∧ (Worker.compute_shares_map [("u1", 1), ("u2", 3), ("u3", 4)] 2).map
      (fun p => Worker.quotaPct p.2) = [67, 67, 67] :=
  ⟨Worker.shares_sum_le, Worker.shares_forall₂, Worker.scenarioE_before, Worker.scenarioE_after,
    Worker.scenarioE_quotas_before, Worker.scenarioE_quotas_after⟩

/-- C5 witness: the theorem applied at the Scenario E input. -/
theorem C5_fair_share_waterfilling_witness :
    ((Worker.compute_shares_map [("u1", 1), ("u2", 3)] 2).map (·.2)).sum ≤ 2 :=
  C5_fair_share_waterfilling.1 [("u1", 1), ("u2", 3)] 2 (by norm_num)

/-! ## Capacity counter (scheduler reserve + worker.py capacity return) -/

namespace Capacity

/-- The per-node broker state the capacity claim is about: `cap:<node>` plus
the (parsed `cpu_units`) demands of in-flight tasks on the node. -/
structure CapState where
  cap : ℤ
  inflight : List ℤ
  deriving DecidableEq

/-- One transition of the single-scheduler, single-worker system: `dispatch`
reserves `need` after the scheduler's re-check `cap ≥ need`
(scheduler_central.py); `complete` returns `max(1, units)` capacity
(worker.py, `r.incrby(cap_key, max(1, units))`). Both sides parse
`int(task.get("cpu_units", 1))`, so the completing task returns the same
parsed value it was dispatched with. -/
inductive Step : CapState → CapState → Prop
  | dispatch (s : CapState) (need : ℤ) (hneed : need ≤ s.cap) :
      Step s ⟨s.cap - need, need :: s.inflight⟩
  | complete (s : CapState) (need : ℤ) (hmem : need ∈ s.inflight) :
      Step s ⟨s.cap + max 1 need, s.inflight.erase need⟩

/-- States reachable from worker registration (`cap = cap_total`, no task). -/
inductive Reachable (capTotal : ℤ) : CapState → Prop
  | init : Reachable capTotal ⟨capTotal, []⟩
  | step {s t : CapState} : Reachable capTotal s → Step s t → Reachable capTotal t

/-- Reachability when every dispatched task has parsed `cpu_units ≥ 1`
(the wire contract: `cpu_units` required ≥ 1; an absent field parses to 1). -/
inductive ReachableGe1 (capTotal : ℤ) : CapState → Prop
  | init : ReachableGe1 capTotal ⟨capTotal, []⟩
  | dispatch {s : CapState} (need : ℤ) (h1 : 1 ≤ need) (hneed : need ≤ s.cap) :
      ReachableGe1 capTotal s → ReachableGe1 capTotal ⟨s.cap - need, need :: s.inflight⟩
  | complete {s : CapState} (need : ℤ) (hmem : need ∈ s.inflight) :
      ReachableGe1 capTotal s →
      ReachableGe1 capTotal ⟨s.cap + max 1 need, s.inflight.erase need⟩

end Capacity

/-- C2 counterexample: with `cap_total = 2`, dispatching a task whose
`cpu_units` is 0 (reserve 0) and completing it (return `max(1,0) = 1`) reaches
`cap = 3 > cap_total`: the invariant fails for `cpu_units = 0` tasks because
worker.py returns `max(1, units)` while the scheduler reserved `units`. -/
theorem C2_counterexample :
    Capacity.Reachable 2 ⟨3, []⟩ ∧ ¬ ((3:ℤ) ≤ 2) := by
  constructor
  · have h1 : Capacity.Reachable 2 ⟨2, []⟩ := .init
    have h2 : Capacity.Step ⟨2, []⟩ ⟨2, [0]⟩ := by
      have := Capacity.Step.dispatch ⟨2, []⟩ 0 (by norm_num)
      have he : ((2:ℤ) - 0) = 2 := by norm_num
      rw [he] at this
      exact this
    have h3 : Capacity.Step ⟨2, [0]⟩ ⟨3, []⟩ := by
      have := Capacity.Step.complete ⟨2, [0]⟩ 0 (by simp)
      have he : ((2:ℤ) + max 1 0) = 3 := by norm_num
      rw [he] at this
      have he2 : ([(0:ℤ)].erase 0) = [] := by simp
      rw [he2] at this
      exact this
    exact .step (.step h1 h2) h3
  · decide

/-- C2 (amended): in every run in which each dispatched task's parsed
`cpu_units` is at least 1 (as the wire format requires; an absent field parses
to 1), every reachable state of a node registered with `cap_total ≥ 0`
satisfies `0 ≤ cap ≤ cap_total`; the accounting invariant
`cap + Σ inflight = cap_total` holds and all in-flight demands stay ≥ 1. -/
theorem C2_capacity_counter_invariant (capTotal : ℤ) (h0 : 0 ≤ capTotal)
    (s : Capacity.CapState) (hr : Capacity.ReachableGe1 capTotal s) :
    0 ≤ s.cap ∧ s.cap ≤ capTotal
    ∧ s.cap + s.inflight.sum = capTotal
    ∧ ∀ u ∈ s.inflight, 1 ≤ u := by
  induction hr with
  | init => exact ⟨h0, le_refl _, by simp, by simp⟩
  | @dispatch s' need h1 hneed _ ih =>
    obtain ⟨ihpos, ihle, ihsum, ihall⟩ := ih
    have hinfl : 0 ≤ s'.inflight.sum :=
      List.sum_nonneg (fun u hu => le_trans zero_le_one (ihall u hu))
    refine ⟨?_, ?_, ?_, ?_⟩
    · dsimp only; omega
    · dsimp only; omega
    · dsimp only [List.sum_cons]; omega
    · intro u hu
      rcases List.mem_cons.mp hu with rfl | hu
      · exact h1
      · exact ihall u hu
  | @complete s' need hmem _ ih =>
    obtain ⟨ihpos, ihle, ihsum, ihall⟩ := ih
    have hneed1 : 1 ≤ need := ihall need hmem
    have hmax : max 1 need = need := max_eq_right hneed1
    have hperm : List.Perm s'.inflight (need :: s'.inflight.erase need) :=
      List.perm_cons_erase hmem
    have hsum : s'.inflight.sum = need + (s'.inflight.erase need).sum := by
      rw [hperm.sum_eq]
      simp
    have herase_nonneg : 0 ≤ (s'.inflight.erase need).sum :=
      List.sum_nonneg (fun u hu =>
        le_trans zero_le_one (ihall u (List.mem_of_mem_erase hu)))
    refine ⟨?_, ?_, ?_, ?_⟩
    · dsimp only; omega
    · dsimp only; rw [hmax]; omega
    · dsimp only; rw [hmax]; omega
    · intro u hu
      exact ihall u (List.mem_of_mem_erase hu)

/-- C2 witness: the amended invariant applied at the registration state of a
node with `cap_total = 2`. -/
theorem C2_capacity_counter_invariant_witness :
    0 ≤ (⟨2, []⟩ : Capacity.CapState).cap
    ∧ (⟨2, []⟩ : Capacity.CapState).cap ≤ 2
    ∧ (⟨2, []⟩ : Capacity.CapState).cap
        + (⟨2, []⟩ : Capacity.CapState).inflight.sum = 2
    ∧ ∀ u ∈ (⟨2, []⟩ : Capacity.CapState).inflight, 1 ≤ u :=
  C2_capacity_counter_invariant 2 (by decide) ⟨2, []⟩ .init

/-! ## Instrumentation adapter (tools/adapters/ffmpeg_wrapper.py, main) -/

namespace FfmpegWrapper

/-- The state of the `TS_ENQUEUE` environment variable as seen by the adapter. -/
inductive EnvTs where
  | absent
  | unparsable
  | val (v : ℤ)
  deriving DecidableEq

/-- `ts_enqueue = int(ts_enq_env) if ts_enq_env is not None else ts_start`,
falling back to `ts_start` when `int()` raises. -/
def ts_enqueue_of : EnvTs → ℤ → ℤ
  | .val v, _ => v
  | .absent, tsStart => tsStart
  | .unparsable, tsStart => tsStart

/-- The time fields of the span record appended by the adapter on child exit. -/
structure SpanRec where
  ts_enqueue : ℤ
  ts_start : ℤ
  ts_end : ℤ
  deriving DecidableEq

/-- Span emitted by `main`: `ts_start` from `/proc` starttime, `ts_end` wall clock
at `wait` return, `ts_enqueue` from the environment when parsable. -/
def mkSpan (env : EnvTs) (tsStart tsEnd : ℤ) : SpanRec :=
  { ts_enqueue := ts_enqueue_of env tsStart, ts_start := tsStart, ts_end := tsEnd }

end FfmpegWrapper

/-- C6 counterexample: with `TS_ENQUEUE=5000` while the child's measured start is
1000 and its exit 2000, the emitted span violates `ts_enqueue ≤ ts_start`:
the adapter copies the environment value without clamping. -/
theorem C6_counterexample :
    ¬ ((FfmpegWrapper.mkSpan (.val 5000) 1000 2000).ts_enqueue
        ≤ (FfmpegWrapper.mkSpan (.val 5000) 1000 2000).ts_start) := by
  decide

/-- C6 (amended): every span emitted by the adapter satisfies
`ts_enqueue ≤ ts_start ≤ ts_end`, provided the child start measurement precedes
the exit measurement and any parsable `TS_ENQUEUE` value is at most the measured
start; when `TS_ENQUEUE` is absent or unparsable, `ts_enqueue = ts_start`
unconditionally. -/
theorem C6_span_temporal_invariant (env : FfmpegWrapper.EnvTs) (tsStart tsEnd : ℤ)
    (henv : ∀ v, env = .val v → v ≤ tsStart) (hse : tsStart ≤ tsEnd) :
    ((FfmpegWrapper.mkSpan env tsStart tsEnd).ts_enqueue
        ≤ (FfmpegWrapper.mkSpan env tsStart tsEnd).ts_start
      ∧ (FfmpegWrapper.mkSpan env tsStart tsEnd).ts_start
        ≤ (FfmpegWrapper.mkSpan env tsStart tsEnd).ts_end)
    ∧ (env = .absent ∨ env = .unparsable →
        (FfmpegWrapper.mkSpan env tsStart tsEnd).ts_enqueue = tsStart) := by
  refine ⟨⟨?_, hse⟩, ?_⟩
  · cases env with
    | absent => simp [FfmpegWrapper.mkSpan, FfmpegWrapper.ts_enqueue_of]
    | unparsable => simp [FfmpegWrapper.mkSpan, FfmpegWrapper.ts_enqueue_of]
    | val v => simpa [FfmpegWrapper.mkSpan, FfmpegWrapper.ts_enqueue_of] using henv v rfl
  · rintro (rfl | rfl) <;> rfl

/-- C6 witness: the amended theorem applied with `TS_ENQUEUE` absent,
start 1000, end 2000. -/
theorem C6_span_temporal_invariant_witness :
    ((FfmpegWrapper.mkSpan .absent 1000 2000).ts_enqueue
        ≤ (FfmpegWrapper.mkSpan .absent 1000 2000).ts_start
      ∧ (FfmpegWrapper.mkSpan .absent 1000 2000).ts_start
        ≤ (FfmpegWrapper.mkSpan .absent 1000 2000).ts_end)
    ∧ ((FfmpegWrapper.EnvTs.absent = .absent ∨ FfmpegWrapper.EnvTs.absent = .unparsable) →
        (FfmpegWrapper.mkSpan .absent 1000 2000).ts_enqueue = 1000) :=
  C6_span_temporal_invariant .absent 1000 2000 (by intro v h; cases h) (by decide)

/-! ## Central scheduler (Tracekit/tools/scheduler/scheduler_central.py, main) -/

/-- First-occurrence deduplication, as Python's seen-set loops build it. -/
def firstOcc {α : Type} [DecidableEq α] : List α → List α
  | [] => []
  | a :: l => a :: (firstOcc l).filter (fun x => decide (x ≠ a))

theorem mem_firstOcc {α : Type} [DecidableEq α] (x : α) :
    ∀ l : List α, x ∈ firstOcc l ↔ x ∈ l := by
  intro l
  induction l with
  | nil => rfl
  | cons a t ih =>
    simp only [firstOcc, List.mem_cons, List.mem_filter, decide_eq_true_eq]
    constructor
    · rintro (rfl | ⟨hx, _⟩)
      · exact Or.inl rfl
      · exact Or.inr (ih.mp hx)
    · rintro (rfl | hx)
      · exact Or.inl rfl
      · by_cases hxa : x = a
        · exact Or.inl hxa
        · exact Or.inr ⟨ih.mpr hx, hxa⟩

theorem firstOcc_eq_self {α : Type} [DecidableEq α] :
    ∀ l : List α, l.Nodup → firstOcc l = l := by
  intro l
  induction l with
  | nil => intro _; rfl
  | cons a t ih =>
    intro hnd
    rw [List.nodup_cons] at hnd
    rw [firstOcc, ih hnd.2]
    congr 1
    apply List.filter_eq_self.mpr
    intro x hx
    exact decide_eq_true (fun hxa => hnd.1 (hxa ▸ hx))

namespace SchedulerCentral

/-- Python string comparison (code-point lexicographic): `a ≤ b` iff not
`b.data < a.data` on the underlying character lists. -/
def pyStrLe (a b : String) : Prop := ¬ (b.data < a.data)

instance : DecidableRel pyStrLe := fun a b => by unfold pyStrLe; infer_instance

theorem pyStrLe_refl : ∀ a, pyStrLe a a := fun a => lt_irrefl a.data

theorem pyStrLe_total : ∀ a b, pyStrLe a b ∨ pyStrLe b a := fun a b =>
  (le_total a.data b.data).imp (fun h => not_lt.mpr h) (fun h => not_lt.mpr h)

theorem pyStrLe_trans : ∀ a b c, pyStrLe a b → pyStrLe b c → pyStrLe a c := by
  intro a b c hab hbc
  exact not_lt.mpr (le_trans (not_lt.mp hab) (not_lt.mp hbc))

/-- `sorted(...)` over node-id strings. -/
def sortStr (l : List String) : List String := l.insertionSort pyStrLe

/-- The broker state the scheduler manipulates: the global pending queue, the
slot-token list, the registered nodes (those with a `cap:<node>` key) and the
per-node counters and queues. -/
structure SchedState where
  pending : List String
  slots : List String
  nodes : List String
  cap : String → ℤ
  capTotal : String → ℤ
  runCount : String → ℤ
  queues : String → List String

/-- `--weigher` values (empty means first-fit). -/
inductive Weigher where
  | instances
  | vcpu
  deriving DecidableEq

/-- `--weigher-order` values. -/
inductive WOrder where
  | min
  | max
  deriving DecidableEq

/-- Scheduler configuration: weigher, order, `--scan-slots`, and the result of
`json.loads(task_raw).get("cpu_units")` conversion (`none` when parsing or
conversion raises, or the field is absent). -/
structure SchedCfg where
  weigher : Option Weigher
  order : WOrder
  scanSlots : ℤ
  parse : String → Option ℤ

/-- `_metric_instances` / `_metric_vcpu`. -/
def metric (st : SchedState) : Weigher → String → ℤ
  | .instances, nid => st.runCount nid
  | .vcpu, nid =>
    let ct := st.capTotal nid
    if ct ≤ 0 then 0 else max 0 (ct - st.cap nid)

/-- Python tuple comparison on `(metric, node_id)`. -/
def pairLe (a b : ℤ × String) : Prop :=
  a.1 < b.1 ∨ (a.1 = b.1 ∧ pyStrLe a.2 b.2)

instance : DecidableRel pairLe := fun a b => by unfold pairLe; infer_instance

theorem pairLe_refl : ∀ a, pairLe a a := fun a => Or.inr ⟨rfl, pyStrLe_refl a.2⟩

theorem pairLe_total : ∀ a b, pairLe a b ∨ pairLe b a := by
  intro a b
  rcases lt_trichotomy a.1 b.1 with h | h | h
  · exact Or.inl (Or.inl h)
  · rcases pyStrLe_total a.2 b.2 with hs | hs
    · exact Or.inl (Or.inr ⟨h, hs⟩)
    · exact Or.inr (Or.inr ⟨h.symm, hs⟩)
  · exact Or.inr (Or.inl h)

theorem pairLe_trans : ∀ a b c, pairLe a b → pairLe b c → pairLe a c := by
  rintro a b c (hab | ⟨hab, sab⟩) (hbc | ⟨hbc, sbc⟩)
  · exact Or.inl (lt_trans hab hbc)
  · exact Or.inl (hbc ▸ hab)
  · exact Or.inl (hab ▸ hbc)
  · exact Or.inr ⟨hab.trans hbc, pyStrLe_trans _ _ _ sab sbc⟩

/-- `_choose_host`: first-fit takes the sorted head; a weigher sorts
`(metric, nid)` tuples ascending (descending for `order=max`) and takes the
first. -/
def _choose_host (cfg : SchedCfg) (st : SchedState) (feasible : List String) :
    Option String :=
  if feasible.isEmpty then none
  else
    match cfg.weigher with
    | none => (sortStr feasible).head?
    | some w =>
      let items := feasible.map (fun nid => (metric st w nid, nid))
      let sorted := match cfg.order with
        | .min => items.insertionSort pairLe
        | .max => items.insertionSort (fun a b => pairLe b a)
      sorted.head?.map (·.2)

/-- `sorted(set(...))` over the node ids scanned from `cap:*` keys. -/
def capHosts (st : SchedState) : List String := sortStr (firstOcc st.nodes)

/-- Nodes whose remaining capacity covers `need` (capacity-only scan). -/
def capFeasible (st : SchedState) (need : ℤ) : List String :=
  (capHosts st).filter (fun nid => decide (need ≤ st.cap nid))

/-- The committed dispatch: reserve capacity, pop the pending head, bump
`run_count`, append the raw payload to the node queue. -/
def dispatch (st : SchedState) (nid : String) (need : ℤ) (raw : String) : SchedState :=
  { st with
    cap := Function.update st.cap nid (st.cap nid - need),
    pending := st.pending.tail,
    runCount := Function.update st.runCount nid (st.runCount nid + 1),
    queues := Function.update st.queues nid (st.queues nid ++ [raw]) }

/-- `RPOPLPUSH slots slots`: move the tail token to the head. -/
def rotateOnce (l : List String) : List String :=
  match l.getLast? with
  | none => l
  | some z => z :: l.dropLast

/-- Iterated rotation (the token-consume loop when no token matches). -/
def rotateN : ℕ → List String → List String
  | 0, l => l
  | k + 1, l => rotateN k (rotateOnce l)

/-- The token-consume loop: rotate up to `max_scan` times; when the rotated
tail is the chosen node, pop it (consume the token). -/
def consumeLoop : ℕ → List String → String → (List String × Bool)
  | 0, l, _ => (l, false)
  | k + 1, l, c =>
    match l.getLast? with
    | none => (l, false)
    | some z =>
      if z = c then (l.dropLast, true)
      else consumeLoop k (z :: l.dropLast) c

/-- `LREM slots 1 c`: remove the first occurrence. -/
def lrem1 (l : List String) (c : String) : List String := l.erase c

/-- `--scan-slots` resolution: all tokens when `≤ 0`, else at most that many. -/
def maxScanOf (cfg : SchedCfg) (st : SchedState) : ℕ :=
  if cfg.scanSlots ≤ 0 then st.slots.length
  else min st.slots.length cfg.scanSlots.toNat

/-- The rightmost `max_scan` tokens (`LRANGE slots (n-k) (n-1)`). -/
def snapshotTokens (cfg : SchedCfg) (st : SchedState) : List String :=
  st.slots.drop (st.slots.length - maxScanOf cfg st)

/-- Feasible nodes from the slot snapshot: token count positive and capacity
covering `need`, in sorted first-occurrence order. -/
def snapshotFeasible (cfg : SchedCfg) (st : SchedState) (need : ℤ) : List String :=
  (sortStr (firstOcc (snapshotTokens cfg st))).filter (fun nid =>
    decide (0 < (snapshotTokens cfg st).count nid ∧ need ≤ st.cap nid))

/-- The capacity-only dispatch path (`n <= 0`: no slot gating). -/
def noSlotsStep (cfg : SchedCfg) (st : SchedState) (need : ℤ) (raw : String) :
    SchedState :=
  match _choose_host cfg st (capFeasible st need) with
  | none => st
  | some chosen =>
    if st.cap chosen < need then st
    else dispatch st chosen need raw

/-- Token consumption followed by re-check and dispatch (slot-gated path). -/
def slotDispatch (cfg : SchedCfg) (st : SchedState) (need : ℤ) (raw : String)
    (chosen : String) : SchedState :=
  let consumed := consumeLoop (maxScanOf cfg st) st.slots chosen
  let slots2 := if consumed.2 then consumed.1 else lrem1 consumed.1 chosen
  if st.cap chosen < need then
    { st with slots := slots2 ++ [chosen] }
  else
    dispatch { st with slots := slots2 } chosen need raw

/-- One scheduler iteration after peeking the head task, with demand `need`. -/
def sched_step_go (cfg : SchedCfg) (st : SchedState) (raw : String) (need : ℤ) :
    SchedState :=
  if st.slots.length ≤ 0 then noSlotsStep cfg st need raw
  else
    match _choose_host cfg st (snapshotFeasible cfg st need) with
    | some chosen => slotDispatch cfg st need raw chosen
    | none =>
      match _choose_host cfg st (capFeasible st need) with
      | some nid =>
        -- Fallback dispatch without a `continue`: control falls through to the
        -- token-consume loop with `chosen = None`, which only rotates the slot
        -- list `max_scan` times; the final `LREM slots 1 None` raises inside
        -- redis-py and the outer handler ends the iteration.
        let st1 := dispatch st nid need raw
        { st1 with slots := rotateN (maxScanOf cfg st) st1.slots }
      | none => st

/-- One full scheduler iteration: peek the pending head, parse
`need = cpu_units` (default 1 on any parse failure), then dispatch. -/
def sched_step (cfg : SchedCfg) (st : SchedState) : SchedState :=
  match st.pending.head? with
  | none => st
  | some raw => sched_step_go cfg st raw ((cfg.parse raw).getD 1)

theorem head_sort_rel {α : Type} (r : α → α → Prop) [DecidableRel r]
    (hrefl : ∀ a, r a a) (htot : ∀ a b, r a b ∨ r b a)
    (htrans : ∀ a b c, r a b → r b c → r a c)
    {l : List α} {a : α} (ha : (l.insertionSort r).head? = some a) :
    a ∈ l ∧ ∀ x ∈ l, r a x := by
  haveI : IsTotal α r := ⟨htot⟩
  haveI : IsTrans α r := ⟨fun x y z => htrans x y z⟩
  have hsorted := List.sorted_insertionSort r l
  obtain ⟨t, ht⟩ : ∃ t, l.insertionSort r = a :: t := by
    cases hs : l.insertionSort r with
    | nil => rw [hs] at ha; cases ha
    | cons b t =>
      rw [hs] at ha
      cases ha
      exact ⟨t, rfl⟩
  constructor
  · have : a ∈ l.insertionSort r := ht ▸ List.mem_cons_self a t
    exact (List.mem_insertionSort r).mp this
  · intro x hx
    have hx' : x ∈ a :: t := ht ▸ (List.mem_insertionSort r).mpr hx
    rcases List.mem_cons.mp hx' with rfl | hxt
    · exact hrefl x
    · rw [ht] at hsorted
      exact List.rel_of_sorted_cons hsorted x hxt

theorem choose_host_empty (cfg : SchedCfg) (st : SchedState) :
    _choose_host cfg st [] = none := by
  simp [_choose_host]

theorem choose_host_isSome (cfg : SchedCfg) (st : SchedState) {feasible : List String}
    (h : feasible ≠ []) : ∃ c, _choose_host cfg st feasible = some c := by
  unfold _choose_host
  rw [if_neg (by simpa [List.isEmpty_iff] using h)]
  cases cfg.weigher with
  | none =>
    have hne : sortStr feasible ≠ [] := by
      intro h0
      have := List.length_insertionSort pyStrLe feasible
      rw [show sortStr feasible = List.insertionSort pyStrLe feasible from rfl] at h0
      rw [h0] at this
      exact h (List.length_eq_zero.mp this.symm)
    obtain ⟨c, t, hct⟩ := List.exists_cons_of_ne_nil hne
    exact ⟨c, by dsimp only; rw [hct]; rfl⟩
  | some w =>
    have hmapne : feasible.map (fun nid => (metric st w nid, nid)) ≠ [] := by
      simpa using h
    cases cfg.order with
    | min =>
      have hne : (feasible.map (fun nid => (metric st w nid, nid))).insertionSort pairLe
          ≠ [] := by
        intro h0
        have := List.length_insertionSort pairLe
          (feasible.map (fun nid => (metric st w nid, nid)))
        rw [h0] at this
        exact hmapne (List.length_eq_zero.mp this.symm)
      obtain ⟨c, t, hct⟩ := List.exists_cons_of_ne_nil hne
      exact ⟨c.2, by dsimp only; rw [hct]; rfl⟩
    | max =>
      have hne : (feasible.map (fun nid => (metric st w nid, nid))).insertionSort
          (fun a b => pairLe b a) ≠ [] := by
        intro h0
        have := List.length_insertionSort (fun a b => pairLe b a)
          (feasible.map (fun nid => (metric st w nid, nid)))
        rw [h0] at this
        exact hmapne (List.length_eq_zero.mp this.symm)
      obtain ⟨c, t, hct⟩ := List.exists_cons_of_ne_nil hne
      exact ⟨c.2, by dsimp only; rw [hct]; rfl⟩

theorem choose_host_mem (cfg : SchedCfg) (st : SchedState) {feasible : List String}
    {c : String} (h : _choose_host cfg st feasible = some c) : c ∈ feasible := by
  unfold _choose_host at h
  by_cases hemp : feasible.isEmpty
  · rw [if_pos hemp] at h; cases h
  rw [if_neg hemp] at h
  cases hw : cfg.weigher with
  | none =>
    rw [hw] at h
    have := (head_sort_rel pyStrLe pyStrLe_refl pyStrLe_total pyStrLe_trans h).1
    exact this
  | some w =>
    rw [hw] at h
    dsimp only at h
    cases ho : cfg.order with
    | min =>
      rw [ho] at h
      dsimp only at h
      cases hh : ((feasible.map (fun nid => (metric st w nid, nid))).insertionSort
          pairLe).head? with
      | none => rw [hh] at h; cases h
      | some p =>
        rw [hh] at h
        have hc : p.2 = c := Option.some.inj h
        have hmem := (head_sort_rel pairLe pairLe_refl pairLe_total pairLe_trans hh).1
        obtain ⟨nid, hnid, hp⟩ := List.mem_map.mp hmem
        rw [← hc, ← hp]
        exact hnid
    | max =>
      rw [ho] at h
      dsimp only at h
      cases hh : ((feasible.map (fun nid => (metric st w nid, nid))).insertionSort
          (fun a b => pairLe b a)).head? with
      | none => rw [hh] at h; cases h
      | some p =>
        rw [hh] at h
        have hc : p.2 = c := Option.some.inj h
        have hmem := (head_sort_rel (fun a b => pairLe b a)
          (fun a => pairLe_refl a) (fun a b => pairLe_total b a)
          (fun a b d hab hbd => pairLe_trans d b a hbd hab) hh).1
        obtain ⟨nid, hnid, hp⟩ := List.mem_map.mp hmem
        rw [← hc, ← hp]
        exact hnid

theorem rotateOnce_perm (l : List String) : List.Perm (rotateOnce l) l := by
  unfold rotateOnce
  cases hl : l.getLast? with
  | none => exact List.Perm.refl l
  | some z =>
    have hne : l ≠ [] := by
      intro h0
      rw [h0] at hl
      cases hl
    have hz : z = l.getLast hne := by
      rw [List.getLast?_eq_getLast l hne] at hl
      exact (Option.some.inj hl).symm
    have hsplit : l.dropLast ++ [z] = l := by
      rw [hz]
      exact List.dropLast_append_getLast hne
    calc List.Perm (z :: l.dropLast) (l.dropLast ++ [z]) :=
          (List.perm_append_singleton z l.dropLast).symm
      _ = l := hsplit

theorem rotateN_perm (k : ℕ) : ∀ l : List String, List.Perm (rotateN k l) l := by
  induction k with
  | zero => intro l; exact List.Perm.refl l
  | succ n ih =>
    intro l
    exact (ih (rotateOnce l)).trans (rotateOnce_perm l)

end SchedulerCentral

/-- C3: stale-token fallback — when `slots` is non-empty but no node in the slot
snapshot is feasible for the head task, while some registered node has enough
capacity, one iteration still dispatches the head: its capacity drops by `need`,
the head moves from `pending` to that node's queue, `run_count` is incremented,
and the multiset of slot tokens is unchanged (the fallthrough token-consume loop
only rotates the list before redis-py rejects `LREM slots 1 None`). -/
theorem C3_stale_token_fallback (cfg : SchedulerCentral.SchedCfg)
    (st : SchedulerCentral.SchedState) (raw : String) (rest : List String)
    (hp : st.pending = raw :: rest)
    (hslots : st.slots ≠ [])
    (hsnap : SchedulerCentral.snapshotFeasible cfg st ((cfg.parse raw).getD 1) = [])
    (hfall : SchedulerCentral.capFeasible st ((cfg.parse raw).getD 1) ≠ []) :
    ∃ nid, ((cfg.parse raw).getD 1) ≤ st.cap nid
      ∧ (SchedulerCentral.sched_step cfg st).cap nid
          = st.cap nid - ((cfg.parse raw).getD 1)
      ∧ (SchedulerCentral.sched_step cfg st).pending = rest
      ∧ (SchedulerCentral.sched_step cfg st).queues nid = st.queues nid ++ [raw]
      ∧ (SchedulerCentral.sched_step cfg st).runCount nid = st.runCount nid + 1
      ∧ List.Perm (SchedulerCentral.sched_step cfg st).slots st.slots
      ∧ (∀ m, m ≠ nid → (SchedulerCentral.sched_step cfg st).cap m = st.cap m
          ∧ (SchedulerCentral.sched_step cfg st).queues m = st.queues m
          ∧ (SchedulerCentral.sched_step cfg st).runCount m = st.runCount m) := by
  set need := (cfg.parse raw).getD 1 with hneed
  obtain ⟨nid, hnid⟩ := SchedulerCentral.choose_host_isSome cfg st hfall
  have hlen0 : ¬ st.slots.length ≤ 0 := by
    have := List.length_pos.mpr hslots
    omega
  have hstep : SchedulerCentral.sched_step cfg st
      = { SchedulerCentral.dispatch st nid need raw with
          slots := SchedulerCentral.rotateN (SchedulerCentral.maxScanOf cfg st)
            (SchedulerCentral.dispatch st nid need raw).slots } := by
    simp only [SchedulerCentral.sched_step, hp, List.head?_cons]
    rw [show SchedulerCentral.sched_step_go cfg st raw need
        = if st.slots.length ≤ 0 then SchedulerCentral.noSlotsStep cfg st need raw
          else
            match SchedulerCentral._choose_host cfg st
                (SchedulerCentral.snapshotFeasible cfg st need) with
            | some chosen => SchedulerCentral.slotDispatch cfg st need raw chosen
            | none =>
              match SchedulerCentral._choose_host cfg st
                  (SchedulerCentral.capFeasible st need) with
              | some nid =>
                { SchedulerCentral.dispatch st nid need raw with
                  slots := SchedulerCentral.rotateN (SchedulerCentral.maxScanOf cfg st)
                    (SchedulerCentral.dispatch st nid need raw).slots }
              | none => st
          from rfl]
    rw [if_neg hlen0, hsnap, SchedulerCentral.choose_host_empty, hnid]
  have hmem := SchedulerCentral.choose_host_mem cfg st hnid
  have hcap : need ≤ st.cap nid := by
    unfold SchedulerCentral.capFeasible at hmem
    have := (List.mem_filter.mp hmem).2
    exact of_decide_eq_true this
  refine ⟨nid, hcap, ?_, ?_, ?_, ?_, ?_, ?_⟩
  · rw [hstep]
    simp [SchedulerCentral.dispatch]
  · rw [hstep]
    simp [SchedulerCentral.dispatch, hp]
  · rw [hstep]
    simp [SchedulerCentral.dispatch]
  · rw [hstep]
    simp [SchedulerCentral.dispatch]
  · rw [hstep]
    exact SchedulerCentral.rotateN_perm _ _
  · intro m hm
    rw [hstep]
    simp [SchedulerCentral.dispatch, Function.update_noteq hm]

namespace SchedulerCentral

theorem sched_step_go_dichotomy (cfg : SchedCfg) (st : SchedState) (raw : String)
    (need : ℤ) (rest : List String) (hp : st.pending = raw :: rest) :
    ((sched_step_go cfg st raw need).pending = st.pending
      ∧ (sched_step_go cfg st raw need).queues = st.queues)
    ∨ ∃ nid, (sched_step_go cfg st raw need).pending = rest
        ∧ (sched_step_go cfg st raw need).queues nid = st.queues nid ++ [raw]
        ∧ ∀ m, m ≠ nid → (sched_step_go cfg st raw need).queues m = st.queues m := by
  unfold sched_step_go
  split
  · -- capacity-only path (no slot tokens)
    unfold noSlotsStep
    split
    · exact Or.inl ⟨rfl, rfl⟩
    · rename_i chosen hch
      split
      · exact Or.inl ⟨rfl, rfl⟩
      · refine Or.inr ⟨chosen, ?_, ?_, ?_⟩
        · simp [dispatch, hp]
        · simp [dispatch]
        · intro m hm
          simp [dispatch, Function.update_noteq hm]
  · split
    · rename_i chosen hch
      unfold slotDispatch
      dsimp only
      split
      · exact Or.inl ⟨rfl, rfl⟩
      · refine Or.inr ⟨chosen, ?_, ?_, ?_⟩
        · simp [dispatch, hp]
        · simp [dispatch]
        · intro m hm
          simp [dispatch, Function.update_noteq hm]
    · split
      · rename_i nid hch2
        refine Or.inr ⟨nid, ?_, ?_, ?_⟩
        · simp [dispatch, hp]
        · simp [dispatch]
        · intro m hm
          simp [dispatch, Function.update_noteq hm]
      · exact Or.inl ⟨rfl, rfl⟩

end SchedulerCentral

/-- C9: malformed head task — when the head of `pending` is not parseable JSON
(or carries no usable `cpu_units`), one scheduler iteration behaves exactly as
with demand `need = 1`, and the raw payload is never rejected or dropped: either
the state's pending queue and node queues are untouched (head-of-line blocking),
or the head is popped and appended byte-for-byte unchanged to exactly one node
queue. -/
theorem C9_malformed_head_task (cfg : SchedulerCentral.SchedCfg)
    (st : SchedulerCentral.SchedState) (raw : String) (rest : List String)
    (hp : st.pending = raw :: rest)
    (hparse : cfg.parse raw = none) :
    SchedulerCentral.sched_step cfg st = SchedulerCentral.sched_step_go cfg st raw 1
    ∧ (((SchedulerCentral.sched_step cfg st).pending = st.pending
        ∧ (SchedulerCentral.sched_step cfg st).queues = st.queues)
      ∨ ∃ nid, (SchedulerCentral.sched_step cfg st).pending = rest
          ∧ (SchedulerCentral.sched_step cfg st).queues nid = st.queues nid ++ [raw]
          ∧ ∀ m, m ≠ nid →
              (SchedulerCentral.sched_step cfg st).queues m = st.queues m) := by
  have heq : SchedulerCentral.sched_step cfg st
      = SchedulerCentral.sched_step_go cfg st raw 1 := by
    simp [SchedulerCentral.sched_step, hp, hparse]
  refine ⟨heq, ?_⟩
  rw [heq]
  exact SchedulerCentral.sched_step_go_dichotomy cfg st raw 1 rest hp

/-- C9 witness: an unparsable payload at the head with one registered node of
capacity 1 is dispatched verbatim to that node's queue. -/
theorem C9_malformed_head_task_witness :
    SchedulerCentral.sched_step ⟨none, .min, 0, fun _ => none⟩
        { pending := ["not json"], slots := [], nodes := ["A"],
          cap := fun _ => 1, capTotal := fun _ => 1, runCount := fun _ => 0,
          queues := fun _ => [] }
      = SchedulerCentral.sched_step_go ⟨none, .min, 0, fun _ => none⟩
        { pending := ["not json"], slots := [], nodes := ["A"],
          cap := fun _ => 1, capTotal := fun _ => 1, runCount := fun _ => 0,
          queues := fun _ => [] } "not json" 1
    ∧ (((SchedulerCentral.sched_step ⟨none, .min, 0, fun _ => none⟩
          { pending := ["not json"], slots := [], nodes := ["A"],
            cap := fun _ => 1, capTotal := fun _ => 1, runCount := fun _ => 0,
            queues := fun _ => [] }).pending = ["not json"]
        ∧ (SchedulerCentral.sched_step ⟨none, .min, 0, fun _ => none⟩
          { pending := ["not json"], slots := [], nodes := ["A"],
            cap := fun _ => 1, capTotal := fun _ => 1, runCount := fun _ => 0,
            queues := fun _ => [] }).queues = (fun _ => []))
      ∨ ∃ nid, (SchedulerCentral.sched_step ⟨none, .min, 0, fun _ => none⟩
          { pending := ["not json"], slots := [], nodes := ["A"],
            cap := fun _ => 1, capTotal := fun _ => 1, runCount := fun _ => 0,
            queues := fun _ => [] }).pending = []
          ∧ (SchedulerCentral.sched_step ⟨none, .min, 0, fun _ => none⟩
            { pending := ["not json"], slots := [], nodes := ["A"],
              cap := fun _ => 1, capTotal := fun _ => 1, runCount := fun _ => 0,
              queues := fun _ => [] }).queues nid = [] ++ ["not json"]
          ∧ ∀ m, m ≠ nid → (SchedulerCentral.sched_step ⟨none, .min, 0, fun _ => none⟩
            { pending := ["not json"], slots := [], nodes := ["A"],
              cap := fun _ => 1, capTotal := fun _ => 1, runCount := fun _ => 0,
              queues := fun _ => [] }).queues m = []) := by
  have h := C9_malformed_head_task ⟨none, .min, 0, fun _ => none⟩
    { pending := ["not json"], slots := [], nodes := ["A"],
      cap := fun _ => 1, capTotal := fun _ => 1, runCount := fun _ => 0,
      queues := fun _ => [] } "not json" [] rfl rfl
  exact h

/-- C4 (amended): with no weigher the scheduler picks the lexicographically
smallest feasible id; with a weigher and `order=min` (resp. `max`) it picks the
node minimising (resp. maximising) the pair `(metric, id)` in Python tuple
order; the instances metric is `run_count(n)`; the vcpu metric equals
`cap_total(n) − cap(n)` whenever `0 ≤ cap(n) ≤ cap_total(n)` (the code clamps it
to `max(0, ·)` and to 0 when `cap_total ≤ 0`); a non-empty feasible set always
yields a choice; Scenario D (`A: run_count=2`, `B: run_count=0`,
`weigher=instances, order=min`) picks B. -/
theorem C4_host_selection :
    (∀ (cfg : SchedulerCentral.SchedCfg) (st : SchedulerCentral.SchedState)
       (feasible : List String) (c : String),
       cfg.weigher = none →
       SchedulerCentral._choose_host cfg st feasible = some c →
       c ∈ feasible ∧ ∀ x ∈ feasible, SchedulerCentral.pyStrLe c x)
  ∧ (∀ (cfg : SchedulerCentral.SchedCfg) (st : SchedulerCentral.SchedState)
       (feasible : List String), feasible ≠ [] →
       ∃ c, SchedulerCentral._choose_host cfg st feasible = some c)
  ∧ (∀ (cfg : SchedulerCentral.SchedCfg) (st : SchedulerCentral.SchedState)
       (w : SchedulerCentral.Weigher) (feasible : List String) (c : String),
       cfg.weigher = some w → cfg.order = .min →
       SchedulerCentral._choose_host cfg st feasible = some c →
       c ∈ feasible ∧ ∀ x ∈ feasible,
         SchedulerCentral.pairLe (SchedulerCentral.metric st w c, c)
           (SchedulerCentral.metric st w x, x))
  ∧ (∀ (cfg : SchedulerCentral.SchedCfg) (st : SchedulerCentral.SchedState)
       (w : SchedulerCentral.Weigher) (feasible : List String) (c : String),
       cfg.weigher = some w → cfg.order = .max →
       SchedulerCentral._choose_host cfg st feasible = some c →
       c ∈ feasible ∧ ∀ x ∈ feasible,
         SchedulerCentral.pairLe (SchedulerCentral.metric st w x, x)
           (SchedulerCentral.metric st w c, c))
  ∧ (∀ (st : SchedulerCentral.SchedState) (nid : String),
       SchedulerCentral.metric st .instances nid = st.runCount nid)
  ∧ (∀ (st : SchedulerCentral.SchedState) (nid : String),
       0 ≤ st.cap nid → st.cap nid ≤ st.capTotal nid →
       SchedulerCentral.metric st .vcpu nid = st.capTotal nid - st.cap nid)
  ∧ SchedulerCentral._choose_host ⟨some .instances, .min, 0, fun _ => none⟩
      { pending := [], slots := [], nodes := ["A", "B"],
        cap := fun _ => 1, capTotal := fun _ => 1,
        runCount := fun n => if n = "A" then 2 else 0,
        queues := fun _ => [] } ["A", "B"] = some "B" := by
  refine ⟨?_, ?_, ?_, ?_, ?_, ?_, ?_⟩
  · intro cfg st feasible c hw h
    unfold SchedulerCentral._choose_host at h
    by_cases hemp : feasible.isEmpty
    · rw [if_pos hemp] at h; cases h
    rw [if_neg hemp, hw] at h
    exact SchedulerCentral.head_sort_rel SchedulerCentral.pyStrLe
      SchedulerCentral.pyStrLe_refl SchedulerCentral.pyStrLe_total
      SchedulerCentral.pyStrLe_trans h
  · intro cfg st feasible h
    exact SchedulerCentral.choose_host_isSome cfg st h
  · intro cfg st w feasible c hw ho h
    unfold SchedulerCentral._choose_host at h
    by_cases hemp : feasible.isEmpty
    · rw [if_pos hemp] at h; cases h
    rw [if_neg hemp, hw] at h
    dsimp only at h
    rw [ho] at h
    dsimp only at h
    cases hh : ((feasible.map (fun nid =>
        (SchedulerCentral.metric st w nid, nid))).insertionSort
        SchedulerCentral.pairLe).head? with
    | none => rw [hh] at h; cases h
    | some p =>
      rw [hh] at h
      have hc : p.2 = c := Option.some.inj h
      obtain ⟨hmem, hmin⟩ := SchedulerCentral.head_sort_rel SchedulerCentral.pairLe
        SchedulerCentral.pairLe_refl SchedulerCentral.pairLe_total
        SchedulerCentral.pairLe_trans hh
      obtain ⟨nid, hnid, hpeq⟩ := List.mem_map.mp hmem
      subst hpeq
      simp only at hc
      subst hc
      exact ⟨hnid, fun x hx =>
        hmin (SchedulerCentral.metric st w x, x) (List.mem_map_of_mem _ hx)⟩
  · intro cfg st w feasible c hw ho h
    unfold SchedulerCentral._choose_host at h
    by_cases hemp : feasible.isEmpty
    · rw [if_pos hemp] at h; cases h
    rw [if_neg hemp, hw] at h
    dsimp only at h
    rw [ho] at h
    dsimp only at h
    cases hh : ((feasible.map (fun nid =>
        (SchedulerCentral.metric st w nid, nid))).insertionSort
        (fun a b => SchedulerCentral.pairLe b a)).head? with
    | none => rw [hh] at h; cases h
    | some p =>
      rw [hh] at h
      have hc : p.2 = c := Option.some.inj h
      obtain ⟨hmem, hmin⟩ := SchedulerCentral.head_sort_rel
        (fun a b => SchedulerCentral.pairLe b a)
        (fun a => SchedulerCentral.pairLe_refl a)
        (fun a b => SchedulerCentral.pairLe_total b a)
        (fun a b d hab hbd => SchedulerCentral.pairLe_trans d b a hbd hab) hh
      obtain ⟨nid, hnid, hpeq⟩ := List.mem_map.mp hmem
      subst hpeq
      simp only at hc
      subst hc
      exact ⟨hnid, fun x hx =>
        hmin (SchedulerCentral.metric st w x, x) (List.mem_map_of_mem _ hx)⟩
  · intro st nid
    rfl
  · intro st nid h0 h1
    show (if st.capTotal nid ≤ 0 then 0 else max 0 (st.capTotal nid - st.cap nid))
        = st.capTotal nid - st.cap nid
    by_cases hct : st.capTotal nid ≤ 0
    · rw [if_pos hct]
      omega
    · rw [if_neg hct]
      rw [max_eq_right (by omega : (0:ℤ) ≤ st.capTotal nid - st.cap nid)]
  · decide

/-- C4 counterexample: with `weigher=vcpu, order=min`, `cap_total=2` on both
nodes, `cap(A)=3`, `cap(B)=5`, the code's clamped metric (`max(0, ct−cf)`,
0 for both) picks A, while the claim's metric `cap_total − cap` is uniquely
minimal at B (−3 < −1): the claim's selection rule fails on the code. -/
theorem C4_counterexample :
    SchedulerCentral._choose_host ⟨some .vcpu, .min, 0, fun _ => none⟩
      { pending := [], slots := [], nodes := ["A", "B"],
        cap := fun n => if n = "B" then 5 else 3, capTotal := fun _ => 2,
        runCount := fun _ => 0, queues := fun _ => [] } ["A", "B"] = some "A"
    ∧ (({ pending := [], slots := [], nodes := ["A", "B"],
          cap := fun n => if n = "B" then 5 else 3, capTotal := fun _ => 2,
          runCount := fun _ => 0,
          queues := fun _ => [] } : SchedulerCentral.SchedState).capTotal "B"
        - ({ pending := [], slots := [], nodes := ["A", "B"],
             cap := fun n => if n = "B" then 5 else 3, capTotal := fun _ => 2,
             runCount := fun _ => 0,
             queues := fun _ => [] } : SchedulerCentral.SchedState).cap "B")
      < (({ pending := [], slots := [], nodes := ["A", "B"],
            cap := fun n => if n = "B" then 5 else 3, capTotal := fun _ => 2,
            runCount := fun _ => 0,
            queues := fun _ => [] } : SchedulerCentral.SchedState).capTotal "A"
        - ({ pending := [], slots := [], nodes := ["A", "B"],
             cap := fun n => if n = "B" then 5 else 3, capTotal := fun _ => 2,
             runCount := fun _ => 0,
             queues := fun _ => [] } : SchedulerCentral.SchedState).cap "A") := by
  exact ⟨by decide, by decide⟩

/-- C4 witness: the min-order weigher conclusion applied at Scenario D: B is
feasible and `(run_count, id)`-minimal. -/
theorem C4_host_selection_witness :
    "B" ∈ ["A", "B"] ∧ ∀ x ∈ ["A", "B"],
      SchedulerCentral.pairLe
        (SchedulerCentral.metric
          { pending := [], slots := [], nodes := ["A", "B"],
            cap := fun _ => 1, capTotal := fun _ => 1,
            runCount := fun n => if n = "A" then 2 else 0,
            queues := fun _ => [] } .instances "B", "B")
        (SchedulerCentral.metric
          { pending := [], slots := [], nodes := ["A", "B"],
            cap := fun _ => 1, capTotal := fun _ => 1,
            runCount := fun n => if n = "A" then 2 else 0,
            queues := fun _ => [] } .instances x, x) :=
  C4_host_selection.2.2.1 ⟨some .instances, .min, 0, fun _ => none⟩
    { pending := [], slots := [], nodes := ["A", "B"],
      cap := fun _ => 1, capTotal := fun _ => 1,
      runCount := fun n => if n = "A" then 2 else 0,
      queues := fun _ => [] } .instances ["A", "B"] "B" rfl rfl (by decide)

/-- C3 witness: one stray token for node A with `cap(A)=0`, head task needing 1,
node B with `cap(B)=1`: the fallback dispatches to B without touching the token. -/
theorem C3_stale_token_fallback_witness :
    ∃ nid, (1 : ℤ) ≤
        ({ pending := ["t"], slots := ["A"], nodes := ["A", "B"],
           cap := fun n => if n = "B" then 1 else 0,
           capTotal := fun _ => 1, runCount := fun _ => 0,
           queues := fun _ => [] } : SchedulerCentral.SchedState).cap nid
      ∧ (SchedulerCentral.sched_step ⟨none, .min, 0, fun _ => none⟩
          { pending := ["t"], slots := ["A"], nodes := ["A", "B"],
            cap := fun n => if n = "B" then 1 else 0,
            capTotal := fun _ => 1, runCount := fun _ => 0,
            queues := fun _ => [] }).cap nid
          = ({ pending := ["t"], slots := ["A"], nodes := ["A", "B"],
               cap := fun n => if n = "B" then 1 else 0,
               capTotal := fun _ => 1, runCount := fun _ => 0,
               queues := fun _ => [] } : SchedulerCentral.SchedState).cap nid - 1
      ∧ (SchedulerCentral.sched_step ⟨none, .min, 0, fun _ => none⟩
          { pending := ["t"], slots := ["A"], nodes := ["A", "B"],
            cap := fun n => if n = "B" then 1 else 0,
            capTotal := fun _ => 1, runCount := fun _ => 0,
            queues := fun _ => [] }).pending = []
      ∧ (SchedulerCentral.sched_step ⟨none, .min, 0, fun _ => none⟩
          { pending := ["t"], slots := ["A"], nodes := ["A", "B"],
            cap := fun n => if n = "B" then 1 else 0,
            capTotal := fun _ => 1, runCount := fun _ => 0,
            queues := fun _ => [] }).queues nid = [] ++ ["t"]
      ∧ (SchedulerCentral.sched_step ⟨none, .min, 0, fun _ => none⟩
          { pending := ["t"], slots := ["A"], nodes := ["A", "B"],
            cap := fun n => if n = "B" then 1 else 0,
            capTotal := fun _ => 1, runCount := fun _ => 0,
            queues := fun _ => [] }).runCount nid = 0 + 1
      ∧ List.Perm (SchedulerCentral.sched_step ⟨none, .min, 0, fun _ => none⟩
          { pending := ["t"], slots := ["A"], nodes := ["A", "B"],
            cap := fun n => if n = "B" then 1 else 0,
            capTotal := fun _ => 1, runCount := fun _ => 0,
            queues := fun _ => [] }).slots ["A"] := by
  obtain ⟨nid, h1, h2, h3, h4, h5, h6, _⟩ :=
    C3_stale_token_fallback ⟨none, .min, 0, fun _ => none⟩
      { pending := ["t"], slots := ["A"], nodes := ["A", "B"],
        cap := fun n => if n = "B" then 1 else 0,
        capTotal := fun _ => 1, runCount := fun _ => 0,
        queues := fun _ => [] } "t" []
      rfl (by simp) (by decide) (by decide)
  exact ⟨nid, h1, h2, h3, h4, h5, h6⟩

/-! ## Normalizer CPU diff (tools/parse_sys.py, proc_metrics merge loop) -/

namespace ParseSys

/-- A raw sampler record as parsed from `proc_metrics.jsonl`; `none` models a
missing or non-integer field. -/
structure RawRec where
  ts_ms : Option ℤ
  pid : Option ℤ
  utime : Option ℤ
  stime : Option ℤ
  rss_kb : Option ℤ
  deriving DecidableEq

/-- A diffed record written to `cctf/proc_metrics.jsonl`. -/
structure DiffRec where
  ts_ms : ℤ
  pid : ℤ
  dt_ms : ℤ
  cpu_ms : ℤ
  rss_kb : Option ℤ
  deriving DecidableEq

/-- The merge loop of parse_sys.py §6: one output record per record with integer
`ts_ms` and `pid`; `last` maps a pid to its previous `(utime, stime, ts_ms)`. -/
def proc_diff (clk : ℤ) (last : ℤ → Option (ℤ × ℤ × ℤ)) : List RawRec → List DiffRec
  | [] => []
  | o :: rest =>
    match o.ts_ms, o.pid with
    | some ts, some pid =>
      match last pid, o.utime, o.stime with
      | some (put, pst, pts), some ut, some st =>
        if ts ≠ pts then
          { ts_ms := ts, pid := pid, dt_ms := max 0 (ts - pts),
            cpu_ms := max 0 ((ut + st) - (put + pst)) * 1000 / max 1 clk,
            rss_kb := o.rss_kb } ::
            proc_diff clk (Function.update last pid (some (ut, st, ts))) rest
        else if put + pst < ut + st then
          ⟨ts, pid, 0, 0, o.rss_kb⟩ ::
            proc_diff clk (Function.update last pid (some (ut, st, ts))) rest
        else
          ⟨ts, pid, 0, 0, o.rss_kb⟩ :: proc_diff clk last rest
      | none, some ut, some st =>
        ⟨ts, pid, 0, 0, o.rss_kb⟩ ::
          proc_diff clk (Function.update last pid (some (ut, st, ts))) rest
      | _, _, _ => ⟨ts, pid, 0, 0, o.rss_kb⟩ :: proc_diff clk last rest
    | _, _ => proc_diff clk last rest

/-- Modelled from the spec sentence of C7: each sample diffs against the
previous sample of the same pid with `dt_ms = ts_ms − prev_ts_ms` and
`cpu_ms = ((utime+stime) − prev(utime+stime))·1000/clock_tick` (no clamping);
the first sample of a pid emits zeros. -/
def spec_diff (clk : ℤ) (last : ℤ → Option (ℤ × ℤ × ℤ)) : List RawRec → List DiffRec
  | [] => []
  | o :: rest =>
    match o.ts_ms, o.pid, o.utime, o.stime with
    | some ts, some pid, some ut, some st =>
      (match last pid with
       | none => (⟨ts, pid, 0, 0, o.rss_kb⟩ : DiffRec)
       | some (put, pst, pts) =>
         ⟨ts, pid, ts - pts, ((ut + st) - (put + pst)) * 1000 / max 1 clk, o.rss_kb⟩) ::
        spec_diff clk (Function.update last pid (some (ut, st, ts))) rest
    | _, _, _, _ => spec_diff clk last rest

/-- Well-formed raw stream: every record carries integer `ts_ms`, `pid`,
`utime`, `stime`; per pid, `ts_ms` strictly increases and `utime+stime`
never decreases (relative to the tracking state `last`). -/
def streamOk (last : ℤ → Option (ℤ × ℤ × ℤ)) : List RawRec → Bool
  | [] => true
  | o :: rest =>
    match o.ts_ms, o.pid, o.utime, o.stime with
    | some ts, some pid, some ut, some st =>
      (match last pid with
       | none => true
       | some (put, pst, pts) => decide (pts < ts ∧ put + pst ≤ ut + st))
      && streamOk (Function.update last pid (some (ut, st, ts))) rest
    | _, _, _, _ => false

/-- A raw stream whose second sample regresses in time. -/
def c7demo : List RawRec :=
  [⟨some 200, some 1, some 0, some 0, none⟩, ⟨some 100, some 1, some 5, some 0, none⟩]

end ParseSys

/-- C7 counterexample: on a stream whose second sample of pid 1 has `ts_ms`
regressing from 200 to 100, the code emits `dt_ms = 0` (clamped) while the
claimed formula `dt_ms = ts_ms − prev_ts_ms` gives −100: the code and the
claimed rule disagree. -/
theorem C7_counterexample :
    ParseSys.proc_diff 100 (fun _ => none) ParseSys.c7demo
        ≠ ParseSys.spec_diff 100 (fun _ => none) ParseSys.c7demo
    ∧ (ParseSys.proc_diff 100 (fun _ => none) ParseSys.c7demo).map (·.dt_ms) = [0, 0]
    ∧ (ParseSys.spec_diff 100 (fun _ => none) ParseSys.c7demo).map (·.dt_ms) = [0, -100] := by
  refine ⟨?_, by decide, by decide⟩
  decide

/-- C7 (amended): on every raw stream in which each record carries integer
`ts_ms`, `pid`, `utime`, `stime`, with per-pid strictly increasing `ts_ms` and
non-decreasing `utime+stime`, the normalizer emits exactly one diffed record per
input record, equal to the claimed rule: first sample of a pid is zeros, later
samples have `dt_ms = ts_ms − prev_ts_ms` and
`cpu_ms = ⌊((utime+stime) − prev)·1000/clock_tick⌋`. -/
theorem C7_normalizer_diff_rule (clk : ℤ) (last : ℤ → Option (ℤ × ℤ × ℤ))
    (l : List ParseSys.RawRec) (h : ParseSys.streamOk last l = true) :
    ParseSys.proc_diff clk last l = ParseSys.spec_diff clk last l
    ∧ (ParseSys.proc_diff clk last l).length = l.length := by
  induction l generalizing last with
  | nil => exact ⟨rfl, rfl⟩
  | cons o rest ih =>
    obtain ⟨ots, opid, outime, ostime, orss⟩ := o
    cases ots with
    | none => simp [ParseSys.streamOk] at h
    | some ts =>
    cases opid with
    | none => simp [ParseSys.streamOk] at h
    | some pid =>
    cases outime with
    | none => simp [ParseSys.streamOk] at h
    | some ut =>
    cases ostime with
    | none => simp [ParseSys.streamOk] at h
    | some st =>
    cases hl : last pid with
    | none =>
      simp only [ParseSys.streamOk, hl, Bool.true_and] at h
      obtain ⟨heq, hlen⟩ := ih _ h
      simp only [ParseSys.proc_diff, ParseSys.spec_diff, hl]
      exact ⟨by rw [heq], by rw [List.length_cons, hlen, List.length_cons]⟩
    | some prv =>
      obtain ⟨put, pst, pts⟩ := prv
      simp only [ParseSys.streamOk, hl, Bool.and_eq_true, decide_eq_true_eq] at h
      obtain ⟨⟨hts, hticks⟩, hrest⟩ := h
      obtain ⟨heq, hlen⟩ := ih _ hrest
      have hne : ts ≠ pts := ne_of_gt hts
      simp only [ParseSys.proc_diff, ParseSys.spec_diff, hl, if_pos hne]
      constructor
      · rw [heq]
        congr 1
        have h1 : max 0 (ts - pts) = ts - pts := max_eq_right (by omega)
        have h2 : max 0 ((ut + st) - (put + pst)) = (ut + st) - (put + pst) :=
          max_eq_right (by omega)
        rw [h1, h2]
      · rw [List.length_cons, hlen, List.length_cons]

/-- C7 witness: the amended theorem applied to a two-sample stream of pid 1
(clock tick 100). -/
theorem C7_normalizer_diff_rule_witness :
    ParseSys.proc_diff 100 (fun _ => none)
        [⟨some 100, some 1, some 10, some 0, none⟩, ⟨some 300, some 1, some 30, some 5, none⟩]
      = ParseSys.spec_diff 100 (fun _ => none)
        [⟨some 100, some 1, some 10, some 0, none⟩, ⟨some 300, some 1, some 30, some 5, none⟩]
    ∧ (ParseSys.proc_diff 100 (fun _ => none)
        [⟨some 100, some 1, some 10, some 0, none⟩,
         ⟨some 300, some 1, some 30, some 5, none⟩]).length = 2 :=
  C7_normalizer_diff_rule 100 (fun _ => none)
    [⟨some 100, some 1, some 10, some 0, none⟩, ⟨some 300, some 1, some 30, some 5, none⟩]
    (by decide)

/-! ## Exporter data model (tools/export_opendc.py) -/

namespace ExportOpendc

/-- A diffed per-PID sample from `cctf/proc_metrics.jsonl`. -/
structure Sample where
  ts_ms : ℤ
  pid : ℤ
  dt_ms : ℤ
  cpu_ms : ℚ
  rss_kb : Option ℕ
  deriving DecidableEq

/-- A slim invocation record from `cctf/invocations.jsonl`; slim records carry
no `bytes_in`/`bytes_out` (modelled as `none`, read back as `0` by `.get`). -/
structure Invocation where
  pid : ℤ
  ts_enqueue : ℤ
  ts_start : ℤ
  ts_end : ℤ
  bytes_in : Option ℕ
  bytes_out : Option ℕ
  deriving DecidableEq

/-- The per-node metadata used by the exporter. -/
structure NodeMeta where
  cpu_cores : ℤ
  cpu_freq_mhz : ℚ
  deriving DecidableEq

/-- `essential_min_mhz = 0.1`: lower bound to avoid zeros downstream. -/
def essential_min_mhz : ℚ := 1/10

/-- `_safe_freq_mhz`: the node frequency when positive, else 2400.0. -/
def safe_freq_mhz (m : NodeMeta) : ℚ :=
  if 0 < m.cpu_freq_mhz then m.cpu_freq_mhz else 2400

/-- Memory samples of the task's pid inside `[ts_start, ts_end]` carrying a
numeric `rss_kb` (`calculate_mem_capacity`, filter step). -/
def task_mem_samples (inv : Invocation) (pm : List Sample) : List ℕ :=
  (pm.filter (fun s =>
    decide (s.pid = inv.pid ∧ inv.ts_start ≤ s.ts_ms ∧ s.ts_ms ≤ inv.ts_end))).filterMap
    (·.rss_kb)

/-- `calculate_mem_capacity`: peak in-window rss (min 1024 KB), or the data-size
fallback `max(int(2·(bytes_in+bytes_out)/1024), 65536)` when no sample matches. -/
def calculate_mem_capacity (inv : Invocation) (pm : List Sample) : ℕ :=
  match task_mem_samples inv pm with
  | [] => max ((2 * (inv.bytes_in.getD 0 + inv.bytes_out.getD 0)) / 1024) 65536
  | m :: rest => max ((m :: rest).foldl max 0) 1024

/-- One row of `fragments.parquet`. -/
structure Fragment where
  id : ℤ
  duration : ℤ
  cpu_usage : ℚ
  deriving DecidableEq

/-- Head-fragment synthesis (generate_fragments, first-interval block):
if the first sorted sample has `dt_ms > 0` and its window start lies after
`task_start`, emit one fragment covering the gap at the first interval's
clamped core usage times node frequency. -/
def head_fragments (taskId taskStart : ℤ) (meta : NodeMeta) : List Sample → List Fragment
  | [] => []
  | s0 :: _ =>
    if 0 < s0.dt_ms then
      let firstWinStart := s0.ts_ms - s0.dt_ms
      let headDuration := max 0 (firstWinStart - taskStart)
      if 0 < headDuration then
        let firstCores := min (max 0 (s0.cpu_ms / (s0.dt_ms : ℚ))) (meta.cpu_cores : ℚ)
        [⟨taskId, headDuration, max (firstCores * safe_freq_mhz meta) essential_min_mhz⟩]
      else []
    else []

/-- One interval fragment (generate_fragments, per-sample loop body):
clip the window at `task_start`, scale `cpu_ms` proportionally when clipped,
clamp cores to the node's cores, lower-bound usage by ε. -/
def interval_fragment_one (taskId taskStart : ℤ) (meta : NodeMeta) (s : Sample)
    (dt : ℤ) : Option Fragment :=
  let winStart := s.ts_ms - dt
  let clipStart := max taskStart winStart
  let duration := s.ts_ms - clipStart
  if duration ≤ 0 then none
  else
    let cpuAdj := if duration ≠ dt then s.cpu_ms * ((duration : ℚ) / (dt : ℚ)) else s.cpu_ms
    let cores := min (max 0 (cpuAdj / (duration : ℚ))) (meta.cpu_cores : ℚ)
    some ⟨taskId, duration, max (cores * safe_freq_mhz meta) essential_min_mhz⟩

/-- The per-sample loop of generate_fragments: `dt` falls back to the
timestamp difference to the previous sample when `dt_ms ≤ 0` (skipping the
first sample), and non-positive effective durations are skipped. -/
def interval_fragments (taskId taskStart : ℤ) (meta : NodeMeta) :
    List Sample → Option ℤ → List Fragment
  | [], _ => []
  | s :: rest, prevTs =>
    let dtEff : Option ℤ :=
      if s.dt_ms ≤ 0 then
        match prevTs with
        | none => none
        | some pts => if s.ts_ms - pts ≤ 0 then none else some (s.ts_ms - pts)
      else some s.dt_ms
    match dtEff with
    | none => interval_fragments taskId taskStart meta rest (some s.ts_ms)
    | some dt =>
      match interval_fragment_one taskId taskStart meta s dt with
      | none => interval_fragments taskId taskStart meta rest (some s.ts_ms)
      | some f => f :: interval_fragments taskId taskStart meta rest (some s.ts_ms)

/-- Fragments generated for one pid's diffed samples (generate_fragments):
filter to the task window, sort by timestamp, synthesize the head fragment,
then one fragment per interval; with no in-window sample, a single synthetic
fragment covering the task at half its `cpu_capacity`. -/
def fragments_for_pid (taskId taskStart taskEnd : ℤ) (taskCpuCapacity : ℚ)
    (meta : NodeMeta) (cpuSamples : List Sample) : List Fragment :=
  let tw := cpuSamples.filter (fun s => decide (taskStart ≤ s.ts_ms ∧ s.ts_ms ≤ taskEnd))
  if tw.isEmpty then
    [⟨taskId, taskEnd - taskStart, taskCpuCapacity * (1/2)⟩]
  else
    let sorted := tw.insertionSort (fun a b => a.ts_ms ≤ b.ts_ms)
    head_fragments taskId taskStart meta sorted
      ++ interval_fragments taskId taskStart meta sorted none

/-- The fragment the per-sample loop emits for an unclipped interval. -/
def interval_fragment_spec (taskId : ℤ) (meta : NodeMeta) (s : Sample) : Fragment :=
  ⟨taskId, s.dt_ms,
    max (min (s.cpu_ms / (s.dt_ms : ℚ)) (meta.cpu_cores : ℚ) * meta.cpu_freq_mhz)
      essential_min_mhz⟩

theorem interval_fragments_map (taskId taskStart : ℤ) (meta : NodeMeta)
    (hfreq : 0 < meta.cpu_freq_mhz) :
    ∀ (l : List Sample) (prevTs : Option ℤ),
      (∀ s ∈ l, 0 < s.dt_ms ∧ taskStart ≤ s.ts_ms - s.dt_ms ∧ 0 ≤ s.cpu_ms) →
      interval_fragments taskId taskStart meta l prevTs
        = l.map (interval_fragment_spec taskId meta) := by
  intro l
  induction l with
  | nil => intro _ _; rfl
  | cons s rest ih =>
    intro prevTs hall
    obtain ⟨hdt, hwin, hcpu⟩ := hall s (List.mem_cons_self s rest)
    have hdt' : ¬ s.dt_ms ≤ 0 := not_le.mpr hdt
    have hclip : max taskStart (s.ts_ms - s.dt_ms) = s.ts_ms - s.dt_ms := max_eq_right hwin
    have hdur : s.ts_ms - (s.ts_ms - s.dt_ms) = s.dt_ms := by ring
    have hdurpos : ¬ s.dt_ms ≤ 0 := hdt'
    have hcoreeq : min (max 0 (s.cpu_ms / (s.dt_ms : ℚ))) (meta.cpu_cores : ℚ)
        = min (s.cpu_ms / (s.dt_ms : ℚ)) (meta.cpu_cores : ℚ) := by
      rw [max_eq_right]
      exact div_nonneg hcpu (by exact_mod_cast le_of_lt hdt)
    have hone : interval_fragment_one taskId taskStart meta s s.dt_ms
        = some (interval_fragment_spec taskId meta s) := by
      simp only [interval_fragment_one, hclip, hdur, if_neg hdurpos, ne_eq,
        not_true_eq_false, ite_false, if_false, hcoreeq, interval_fragment_spec,
        safe_freq_mhz, if_pos hfreq]
    simp only [interval_fragments, if_neg hdt', hone]
    rw [ih (some s.ts_ms) (fun x hx => hall x (List.mem_cons_of_mem s hx))]
    rfl

end ExportOpendc

/-- C8: head-fragment synthesis — for a task whose sorted in-window diffed
samples all have `dt_ms > 0`, window start at or after `ts_start`, and
nonnegative `cpu_ms`, with the first window start strictly after `ts_start`,
the exporter emits a head fragment of duration `(ts_ms − dt_ms) − ts_start`
at `max(min(cpu_ms/dt_ms, cores)·freq, ε)` followed by one fragment per sample
interval with duration `dt_ms` and usage `max(min(cpu_ms/dt_ms, cores)·freq, ε)`. -/
theorem C8_head_fragment_synthesis (taskId taskStart taskEnd : ℤ) (cap : ℚ)
    (meta : ExportOpendc.NodeMeta) (s0 : ExportOpendc.Sample)
    (rest : List ExportOpendc.Sample)
    (hfreq : 0 < meta.cpu_freq_mhz)
    (hall : ∀ s ∈ s0 :: rest, 0 < s.dt_ms ∧ taskStart ≤ s.ts_ms - s.dt_ms
      ∧ 0 ≤ s.cpu_ms ∧ taskStart ≤ s.ts_ms ∧ s.ts_ms ≤ taskEnd)
    (hhead : taskStart < s0.ts_ms - s0.dt_ms)
    (hsorted : List.Sorted (fun a b : ExportOpendc.Sample => a.ts_ms ≤ b.ts_ms) (s0 :: rest)) :
    ExportOpendc.fragments_for_pid taskId taskStart taskEnd cap meta (s0 :: rest)
      = ⟨taskId, (s0.ts_ms - s0.dt_ms) - taskStart,
          max (min (s0.cpu_ms / (s0.dt_ms : ℚ)) (meta.cpu_cores : ℚ) * meta.cpu_freq_mhz)
            ExportOpendc.essential_min_mhz⟩
        :: (s0 :: rest).map (ExportOpendc.interval_fragment_spec taskId meta) := by
  have hfilter : (s0 :: rest).filter
      (fun s => decide (taskStart ≤ s.ts_ms ∧ s.ts_ms ≤ taskEnd)) = s0 :: rest := by
    apply List.filter_eq_self.mpr
    intro a ha
    obtain ⟨_, _, _, h4, h5⟩ := hall a ha
    exact decide_eq_true ⟨h4, h5⟩
  have hsort : (s0 :: rest).insertionSort (fun a b : ExportOpendc.Sample => a.ts_ms ≤ b.ts_ms)
      = s0 :: rest := hsorted.insertionSort_eq
  unfold ExportOpendc.fragments_for_pid
  rw [hfilter]
  simp only [List.isEmpty_cons, if_neg Bool.false_ne_true, hsort]
  obtain ⟨hdt0, hwin0, hcpu0, _, _⟩ := hall s0 (List.mem_cons_self s0 rest)
  have hheadfrag : ExportOpendc.head_fragments taskId taskStart meta (s0 :: rest)
      = [⟨taskId, (s0.ts_ms - s0.dt_ms) - taskStart,
          max (min (s0.cpu_ms / (s0.dt_ms : ℚ)) (meta.cpu_cores : ℚ) * meta.cpu_freq_mhz)
            ExportOpendc.essential_min_mhz⟩] := by
    unfold ExportOpendc.head_fragments
    have hpos : (0:ℤ) < s0.ts_ms - s0.dt_ms - taskStart := by omega
    have hmax : max 0 (s0.ts_ms - s0.dt_ms - taskStart) = s0.ts_ms - s0.dt_ms - taskStart :=
      max_eq_right (le_of_lt hpos)
    simp only [if_pos hdt0, hmax, if_pos hpos]
    have hcoreeq : min (max 0 (s0.cpu_ms / (s0.dt_ms : ℚ))) (meta.cpu_cores : ℚ)
        = min (s0.cpu_ms / (s0.dt_ms : ℚ)) (meta.cpu_cores : ℚ) := by
      rw [max_eq_right]
      exact div_nonneg hcpu0 (by exact_mod_cast le_of_lt hdt0)
    rw [hcoreeq]
    simp only [ExportOpendc.safe_freq_mhz, if_pos hfreq]
  rw [hheadfrag,
    ExportOpendc.interval_fragments_map taskId taskStart meta hfreq (s0 :: rest) none
      (fun s hs => ⟨(hall s hs).1, (hall s hs).2.1, (hall s hs).2.2.1⟩)]
  rfl

/-- C8 witness: Scenario F — `ts_start=1000`, first sample
`ts_ms=1500, dt_ms=300, cpu_ms=150`, node 2400 MHz with 4 cores: a 200 ms head
fragment at 1200.0 MHz, then a 300 ms fragment at 1200.0 MHz. -/
theorem C8_head_fragment_synthesis_witness :
    ExportOpendc.fragments_for_pid 1 1000 2000 0 ⟨4, 2400⟩ [⟨1500, 9, 300, 150, none⟩]
      = [⟨1, 200, 1200⟩, ⟨1, 300, 1200⟩] := by
  have h := C8_head_fragment_synthesis 1 1000 2000 0 ⟨4, 2400⟩ ⟨1500, 9, 300, 150, none⟩ []
    (by norm_num) (by intro s hs; rw [List.mem_singleton] at hs; subst hs; refine ⟨?_, ?_, ?_, ?_, ?_⟩ <;> norm_num)
    (by norm_num) (by simp)
  rw [h]
  simp only [List.map_cons, List.map_nil, ExportOpendc.interval_fragment_spec,
    ExportOpendc.essential_min_mhz]
  norm_num [min_def, max_def]

namespace ExportOpendc

theorem foldl_max_init_le (l : List ℕ) : ∀ init : ℕ, init ≤ l.foldl max init := by
  induction l with
  | nil => intro init; simp
  | cons y t ih =>
    intro init
    calc init ≤ max init y := le_max_left _ _
      _ ≤ t.foldl max (max init y) := ih _
      _ = (y :: t).foldl max init := rfl

theorem foldl_max_mem_le (l : List ℕ) : ∀ (init x : ℕ), x ∈ l → x ≤ l.foldl max init := by
  induction l with
  | nil => intro _ x hx; cases hx
  | cons y t ih =>
    intro init x hx
    rcases List.mem_cons.mp hx with rfl | hx
    · calc x ≤ max init x := le_max_right _ _
        _ ≤ t.foldl max (max init x) := foldl_max_init_le t _
        _ = (x :: t).foldl max init := rfl
    · exact ih _ x hx

end ExportOpendc

/-- C10: memory-capacity bounds — `calculate_mem_capacity` always returns at
least 1024 KB; with at least one in-window rss sample it is `max(peak, 1024)`
and dominates every sampled rss; with none it is
`max(2·(bytes_in+bytes_out)/1024, 65536)`, which is exactly 65536 KB for slim
invocation records carrying no byte counts. -/
theorem C10_mem_capacity_bounds (inv : ExportOpendc.Invocation)
    (pm : List ExportOpendc.Sample) :
    1024 ≤ ExportOpendc.calculate_mem_capacity inv pm
  ∧ (ExportOpendc.task_mem_samples inv pm = [] →
      ExportOpendc.calculate_mem_capacity inv pm
        = max ((2 * (inv.bytes_in.getD 0 + inv.bytes_out.getD 0)) / 1024) 65536)
  ∧ (ExportOpendc.task_mem_samples inv pm ≠ [] →
      ExportOpendc.calculate_mem_capacity inv pm
        = max ((ExportOpendc.task_mem_samples inv pm).foldl max 0) 1024)
  ∧ (∀ x ∈ ExportOpendc.task_mem_samples inv pm,
      x ≤ ExportOpendc.calculate_mem_capacity inv pm)
  ∧ (inv.bytes_in = none → inv.bytes_out = none →
      ExportOpendc.task_mem_samples inv pm = [] →
      ExportOpendc.calculate_mem_capacity inv pm = 65536) := by
  refine ⟨?_, ?_, ?_, ?_, ?_⟩
  · unfold ExportOpendc.calculate_mem_capacity
    cases h : ExportOpendc.task_mem_samples inv pm with
    | nil => exact le_trans (by norm_num) (le_max_right _ _)
    | cons m rest => exact le_max_right _ _
  · intro h
    unfold ExportOpendc.calculate_mem_capacity
    rw [h]
  · intro h
    unfold ExportOpendc.calculate_mem_capacity
    cases hm : ExportOpendc.task_mem_samples inv pm with
    | nil => exact absurd hm h
    | cons m rest => rfl
  · intro x hx
    unfold ExportOpendc.calculate_mem_capacity
    cases hm : ExportOpendc.task_mem_samples inv pm with
    | nil => rw [hm] at hx; cases hx
    | cons m rest =>
      rw [hm] at hx
      exact le_trans (ExportOpendc.foldl_max_mem_le _ 0 x hx) (le_max_left _ _)
  · intro hbi hbo h
    unfold ExportOpendc.calculate_mem_capacity
    rw [h, hbi, hbo]
    rfl

/-- C10 witness: a slim invocation (no byte counts) with no samples gets
`mem_capacity = 65536` KB, the minimum 64 MB. -/
theorem C10_mem_capacity_bounds_witness :
    1024 ≤ ExportOpendc.calculate_mem_capacity
        ⟨7, 0, 100, 200, none, none⟩ []
    ∧ ExportOpendc.calculate_mem_capacity ⟨7, 0, 100, 200, none, none⟩ [] = 65536 :=
  ⟨(C10_mem_capacity_bounds ⟨7, 0, 100, 200, none, none⟩ []).1,
   (C10_mem_capacity_bounds ⟨7, 0, 100, 200, none, none⟩ []).2.2.2.2 rfl rfl (by decide)⟩

/-! ## Exporter pipeline: task ids and fragment coverage (tools/export_opendc.py, main) -/

namespace ExportOpendc

/-- One node's loaded bundle (`load_node_data`). -/
structure NodeBundle where
  meta : NodeMeta
  invocations : List Invocation
  samples : List Sample

/-- One row of `tasks.parquet` before the P95 recompute (which keeps `id`). -/
structure TaskRec where
  id : ℤ
  submission_time : ℤ
  duration : ℤ
  cpu_count : ℤ
  cpu_capacity : ℚ
  mem_capacity : ℕ
  deriving DecidableEq

/-- Per-sample core usage `max(0, cpu_ms / max(dt_ms, 1))`. -/
def sample_cores (s : Sample) : ℚ := max 0 (s.cpu_ms / (max s.dt_ms 1 : ℚ))

/-- `calculate_cpu_requirements`: `(cpu_count, cpu_capacity_per_core)` from the
in-window diffed samples of the invocation's pid. -/
def calculate_cpu_requirements (inv : Invocation) (meta : NodeMeta)
    (pm : List Sample) : ℤ × ℚ :=
  let durationMs := max 0 (inv.ts_end - inv.ts_start)
  let tcs := pm.filter (fun s => decide (s.pid = inv.pid ∧ inv.ts_start ≤ s.ts_ms
    ∧ s.ts_ms ≤ inv.ts_end ∧ 0 < s.dt_ms))
  let freq := safe_freq_mhz meta
  let coresCap : Option ℤ := if meta.cpu_cores ≤ 0 then none else some meta.cpu_cores
  match tcs with
  | [] => (1, max (freq * (1/2)) essential_min_mhz)
  | _ =>
    let peak := (tcs.map sample_cores).foldl max 0
    let coresUsed := max 1 ⌊peak + 1/2⌋
    let coresUsed := match coresCap with
      | none => coresUsed
      | some c => min coresUsed c
    let totalCpu := (tcs.map (·.cpu_ms)).sum
    if 0 < durationMs ∧ 0 < coresUsed then
      (coresUsed,
        max (freq * min (max ((totalCpu / (durationMs : ℚ)) / (coresUsed : ℚ)) 0) 1) 1)
    else
      (coresUsed, max (freq * (1/10)) 1)

/-- One row of `generate_tasks`'s loop body for an invocation. -/
def mkTask (pidMap : ℤ → ℤ) (meta : NodeMeta) (pm : List Sample)
    (inv : Invocation) : TaskRec :=
  { id := pidMap inv.pid,
    submission_time := inv.ts_enqueue,
    duration := inv.ts_end - inv.ts_start,
    cpu_count := (calculate_cpu_requirements inv meta pm).1,
    cpu_capacity := ((calculate_cpu_requirements inv meta pm).1 : ℚ)
      * (calculate_cpu_requirements inv meta pm).2,
    mem_capacity := calculate_mem_capacity inv pm }

/-- `generate_tasks`: one task per invocation across all node bundles. -/
def generate_tasks (bundles : List NodeBundle) (pidMap : ℤ → ℤ) : List TaskRec :=
  bundles.flatMap (fun b => b.invocations.map (mkTask pidMap b.meta b.samples))

/-- Every invocation's pid across the bundles, in iteration order. -/
def allPids (bundles : List NodeBundle) : List ℤ :=
  bundles.flatMap (fun b => b.invocations.map (·.pid))

/-- The `pids` list of `main`: first occurrence of each distinct pid. -/
def pidsOf (bundles : List NodeBundle) : List ℤ := firstOcc (allPids bundles)

/-- The `conflicts` flag of `main`: some pid occurs more than once. -/
def conflicts (bundles : List NodeBundle) : Bool :=
  !(decide (allPids bundles).Nodup)

/-- `--task-id-mode`. -/
inductive TaskIdMode where
  | auto
  | pid
  | sequential
  deriving DecidableEq

/-- `pid_to_task_id` of `main`: identity in pid mode, position in `pids` plus
one in sequential mode, and the conflict-dependent choice in auto mode. -/
def pid_to_task_id (bundles : List NodeBundle) (mode : TaskIdMode) : ℤ → ℤ :=
  fun p =>
    match mode with
    | .pid => p
    | .sequential => (List.indexOf p (pidsOf bundles) : ℤ) + 1
    | .auto =>
      if conflicts bundles then (List.indexOf p (pidsOf bundles) : ℤ) + 1 else p

/-- An entry of `pid_to_task_info`. -/
structure TaskInfo where
  task_id : ℤ
  task_start : ℤ
  task_end : ℤ
  deriving DecidableEq

/-- `pid_to_task_info`: the last write wins, as for a Python dict. -/
def pid_to_task_info (bundles : List NodeBundle) (pidMap : ℤ → ℤ) :
    ℤ → Option TaskInfo :=
  fun p => List.lookup p
    (((bundles.flatMap (fun b => b.invocations)).map
      (fun inv => (inv.pid, TaskInfo.mk (pidMap inv.pid) inv.ts_start inv.ts_end))).reverse)

/-- The pids of a node's diffed samples (`cpu_by_pid` keys, insertion order). -/
def group_pids (ss : List Sample) : List ℤ :=
  firstOcc ((ss.filter (fun s => decide (0 < s.dt_ms))).map (·.pid))

/-- `cpu_by_pid[p]`: the node's diffed samples of pid `p`. -/
def samples_of (ss : List Sample) (p : ℤ) : List Sample :=
  (ss.filter (fun s => decide (0 < s.dt_ms))).filter (fun s => decide (s.pid = p))

/-- `tasks_df[tasks_df['id'] == id].iloc[0]`, first matching row. -/
def task_row (tasks : List TaskRec) (id : ℤ) : Option TaskRec :=
  tasks.find? (fun t => decide (t.id = id))

/-- The fragments one node bundle contributes (`generate_fragments`, per-node
loop over `cpu_by_pid`). -/
def node_fragments (tasks : List TaskRec) (info : ℤ → Option TaskInfo)
    (b : NodeBundle) : List Fragment :=
  (group_pids b.samples).flatMap (fun p =>
    match info p with
    | none => []
    | some ti =>
      fragments_for_pid ti.task_id ti.task_start ti.task_end
        (((task_row tasks ti.task_id).map (·.cpu_capacity)).getD 0) b.meta
        (samples_of b.samples p))

/-- `generate_fragments`: per-node fragments plus the top-up loop adding one
synthetic fragment (task duration at half capacity) for every task id that
got none. -/
def generate_fragments (bundles : List NodeBundle) (tasks : List TaskRec)
    (info : ℤ → Option TaskInfo) : List Fragment :=
  let base := bundles.flatMap (node_fragments tasks info)
  let missing := firstOcc ((tasks.map (·.id)).filter
    (fun i => decide (i ∉ base.map (·.id))))
  let topUp := missing.map (fun i =>
    ({ id := i, duration := ((task_row tasks i).map (·.duration)).getD 0,
       cpu_usage := (((task_row tasks i).map (·.cpu_capacity)).getD 0) * (1/2) }
      : Fragment))
  base ++ topUp

/-- The `id` column of `tasks.parquet` (the P95 recompute never touches `id`). -/
def export_task_ids (bundles : List NodeBundle) (mode : TaskIdMode) : List ℤ :=
  (generate_tasks bundles (pid_to_task_id bundles mode)).map (·.id)

/-- The `id` column of `fragments.parquet`. -/
def export_fragment_ids (bundles : List NodeBundle) (mode : TaskIdMode) : List ℤ :=
  (generate_fragments bundles (generate_tasks bundles (pid_to_task_id bundles mode))
    (pid_to_task_info bundles (pid_to_task_id bundles mode))).map (·.id)

theorem export_task_ids_eq (bundles : List NodeBundle) (mode : TaskIdMode) :
    export_task_ids bundles mode = (allPids bundles).map (pid_to_task_id bundles mode) := by
  unfold export_task_ids generate_tasks allPids
  rw [List.map_flatMap, List.map_flatMap]
  congr 1
  funext b
  rw [List.map_map, List.map_map]
  rfl

end ExportOpendc

/-- C1 (amended): every id of `tasks.parquet` has at least one fragment row in
`fragments.parquet`, for every input and every task-id mode (the exporter tops
up a synthetic fragment for any task without one); and the `id` column of
`tasks.parquet` is duplicate-free in every mode provided no pid occurs in more
than one invocation across the bundles. -/
theorem C1_export_output_integrity :
    (∀ (bundles : List ExportOpendc.NodeBundle) (mode : ExportOpendc.TaskIdMode),
       ∀ t ∈ ExportOpendc.export_task_ids bundles mode,
         t ∈ ExportOpendc.export_fragment_ids bundles mode)
  ∧ (∀ (bundles : List ExportOpendc.NodeBundle) (mode : ExportOpendc.TaskIdMode),
       (ExportOpendc.allPids bundles).Nodup →
       (ExportOpendc.export_task_ids bundles mode).Nodup) := by
  constructor
  · intro bundles mode t ht
    unfold ExportOpendc.export_fragment_ids ExportOpendc.generate_fragments
    set tasks := ExportOpendc.generate_tasks bundles
      (ExportOpendc.pid_to_task_id bundles mode) with htasks
    set info := ExportOpendc.pid_to_task_info bundles
      (ExportOpendc.pid_to_task_id bundles mode) with hinfo
    set base := bundles.flatMap (ExportOpendc.node_fragments tasks info) with hbase
    have htid : t ∈ tasks.map (·.id) := by
      rw [htasks]
      exact ht
    by_cases hb : t ∈ base.map (·.id)
    · dsimp only
      rw [List.map_append]
      exact List.mem_append_left _ hb
    · dsimp only
      rw [List.map_append]
      apply List.mem_append_right
      have hmiss : t ∈ firstOcc ((tasks.map (·.id)).filter
          (fun i => decide (i ∉ base.map (·.id)))) := by
        rw [mem_firstOcc]
        rw [List.mem_filter]
        exact ⟨htid, decide_eq_true hb⟩
      rw [List.map_map]
      refine List.mem_map.mpr ⟨t, hmiss, rfl⟩
  · intro bundles mode hnd
    rw [ExportOpendc.export_task_ids_eq]
    cases mode with
    | pid =>
      have heq : ExportOpendc.pid_to_task_id bundles .pid = fun p => p := rfl
      rw [heq]
      simpa using hnd
    | sequential =>
      have hpids : ExportOpendc.pidsOf bundles = ExportOpendc.allPids bundles :=
        firstOcc_eq_self _ hnd
      apply List.Nodup.map_on _ hnd
      intro x hx y hy hxy
      simp only [ExportOpendc.pid_to_task_id] at hxy
      have hx' : x ∈ ExportOpendc.pidsOf bundles := hpids ▸ hx
      have hy' : y ∈ ExportOpendc.pidsOf bundles := hpids ▸ hy
      have : List.indexOf x (ExportOpendc.pidsOf bundles)
          = List.indexOf y (ExportOpendc.pidsOf bundles) := by
        have := add_right_cancel hxy
        exact_mod_cast this
      exact (List.indexOf_inj hx' hy').mp this
    | auto =>
      have hc : ExportOpendc.conflicts bundles = false := by
        unfold ExportOpendc.conflicts
        simp [hnd]
      have heq : ExportOpendc.pid_to_task_id bundles .auto = fun p => p := by
        funext p
        simp [ExportOpendc.pid_to_task_id, hc]
      rw [heq]
      simpa using hnd

/-- C1 counterexample: a bundle in which pid 5 occurs in two invocations makes
`tasks.id` contain a duplicate (auto mode falls back to sequential, but the
pid-keyed map gives both invocations the same id; pid and sequential modes
collide the same way). -/
theorem C1_counterexample :
    ¬ (ExportOpendc.export_task_ids
        [⟨⟨4, 2400⟩, [⟨5, 0, 0, 10, none, none⟩, ⟨5, 0, 0, 10, none, none⟩], []⟩]
        .auto).Nodup
    ∧ ¬ (ExportOpendc.export_task_ids
        [⟨⟨4, 2400⟩, [⟨5, 0, 0, 10, none, none⟩, ⟨5, 0, 0, 10, none, none⟩], []⟩]
        .pid).Nodup
    ∧ ¬ (ExportOpendc.export_task_ids
        [⟨⟨4, 2400⟩, [⟨5, 0, 0, 10, none, none⟩, ⟨5, 0, 0, 10, none, none⟩], []⟩]
        .sequential).Nodup := by
  refine ⟨?_, ?_, ?_⟩ <;> · rw [ExportOpendc.export_task_ids_eq]; decide

/-- C1 witness: a two-invocation bundle with distinct pids 5 and 7: both task
ids appear among the fragment ids, and the id column is duplicate-free. -/
theorem C1_export_output_integrity_witness :
    (5 : ℤ) ∈ ExportOpendc.export_fragment_ids
        [⟨⟨4, 2400⟩, [⟨5, 0, 0, 10, none, none⟩, ⟨7, 0, 0, 10, none, none⟩], []⟩] .pid
    ∧ (ExportOpendc.export_task_ids
        [⟨⟨4, 2400⟩, [⟨5, 0, 0, 10, none, none⟩, ⟨7, 0, 0, 10, none, none⟩], []⟩]
        .pid).Nodup := by
  constructor
  · apply C1_export_output_integrity.1
      [⟨⟨4, 2400⟩, [⟨5, 0, 0, 10, none, none⟩, ⟨7, 0, 0, 10, none, none⟩], []⟩] .pid
    rw [ExportOpendc.export_task_ids_eq]
    decide
  · apply C1_export_output_integrity.2
      [⟨⟨4, 2400⟩, [⟨5, 0, 0, 10, none, none⟩, ⟨7, 0, 0, 10, none, none⟩], []⟩] .pid
    decide
